import Mathlib

/-!
A shallow embedding of the `acceleration_structures` quadtree
(`src/rect.rs` and `src/quadtree.rs`) and a verification of the
specification's claims about it.

Modelling conventions:
* `f32` coordinates are modelled as exact rationals (`ℚ`); the spec calls
  them real numbers and every claim is about order comparisons only.
* `u64` ids and `usize` counters are modelled as `Nat`.
* `std::collections::HashMap` is modelled as an association list
  (`List (Nat × β)`) whose keys are unique by construction; iteration
  order is the list order (Rust's iteration order is unspecified, and no
  claim depends on it).
* Fallible behaviour is explicit: a failed `assert!`, a failed
  `debug_assert!`, an `unwrap` of `None`, and a `usize` decrement of `0`
  (which panics in a debug build) are modelled as `Except.error` with a
  dedicated `Fault` token.  `Node::insert` can recurse unboundedly
  (subdividing forever on coincident regions), so `insert`, `subdivide`
  and `move_element` take an explicit fuel argument; running out of fuel
  is the distinguished fault `Fault.outOfFuel`.
-/

set_option maxRecDepth 4000
set_option maxHeartbeats 1000000

/-- Exact rational coordinate, written as the fraction `num / den`.
Every coordinate the model ever builds has a positive denominator:
numeric literals have denominator 1, halving (the only division in the
source) doubles it, and addition multiplies denominators.  The
representation carries no proofs, so whole quadtree states reduce in the
kernel.  (The source stores `f32`; the spec reads them as real numbers,
and every operation of the code is exact on these fractions — halving a
binary float is exact, too.) -/
structure Frac where
  num : Int
  den : Nat
deriving DecidableEq

instance (n : Nat) : OfNat Frac n := ⟨⟨n, 1⟩⟩

namespace Frac

/-- Addition of fractions (`a/b + c/d = (a*d + c*b)/(b*d)`). -/
def add (a b : Frac) : Frac := ⟨a.num * b.den + b.num * a.den, a.den * b.den⟩

/-- Halving (`(a/b) / 2 = a/(2*b)`), the source's `/ 2.0`. -/
def half (a : Frac) : Frac := ⟨a.num, a.den * 2⟩

/-- `a ≤ b` by cross-multiplication; for positive denominators this is
exactly the rational order. -/
def leB (a b : Frac) : Bool := decide (a.num * (b.den : Int) ≤ b.num * (a.den : Int))

/-- The rational a fraction denotes. -/
def toRat (a : Frac) : ℚ := (a.num : ℚ) / (a.den : ℚ)

end Frac

/-- `Rect` from `src/rect.rs`: axis-aligned rectangle, top-left origin. -/
structure Rect where
  x : Frac
  y : Frac
  w : Frac
  h : Frac
deriving DecidableEq

namespace Rect

/-- `Rect::new` -/
def new (x y w h : Frac) : Rect := ⟨x, y, w, h⟩

/-- `Rect::contains`: `other` lies fully inside `self`, boundaries inclusive. -/
def contains (self other : Rect) : Bool :=
  self.x.leB other.x && self.y.leB other.y &&
  (other.x.add other.w).leB (self.x.add self.w) &&
  (other.y.add other.h).leB (self.y.add self.h)

/-- `Rect::overlapps`: projections intersect on both axes, boundaries inclusive. -/
def overlapps (self other : Rect) : Bool :=
  self.x.leB (other.x.add other.w) && other.x.leB (self.x.add self.w) &&
  self.y.leB (other.y.add other.h) && other.y.leB (self.y.add self.h)

end Rect

/-- Association-list model of `HashMap`: lookup of a key. -/
def mapLookup (k : Nat) : List (Nat × β) → Option β
  | [] => none
  | (k', v) :: t => if k' = k then some v else mapLookup k t

/-- Association-list model of `HashMap::insert`: replace the value of an
existing key in place, otherwise append the new binding. -/
def mapInsert (k : Nat) (v : β) : List (Nat × β) → List (Nat × β)
  | [] => [(k, v)]
  | (k', v') :: t => if k' = k then (k, v) :: t else (k', v') :: mapInsert k v t

/-- Association-list model of `HashMap::remove`'s effect on the map:
drop the first binding of the key. -/
def mapErase (k : Nat) : List (Nat × β) → List (Nat × β)
  | [] => []
  | (k', v') :: t => if k' = k then t else (k', v') :: mapErase k t

/-- Association-list model of `HashMap::extend`. -/
def mapExtend (base new : List (Nat × β)) : List (Nat × β) :=
  new.foldl (fun acc p => mapInsert p.1 p.2 acc) base

/-- The ways an operation of the Rust code can abort (panic) instead of
returning, plus fuel exhaustion of the unboundedly recursive `insert`. -/
inductive Fault where
  /-- `assert!(self.region.contains(&region))` in `Node::insert` failed. -/
  | assertContainmentFailed
  /-- `self.children.as_mut().unwrap()` in `Node::insert` hit `None`
  (a leaf holding more than `max_node_capacity` elements). -/
  | childrenMissing
  /-- `Node::fuse` on a leaf: `debug_assert!(!self.is_leaf())` and the
  `unwrap` of `self.children.take()`. -/
  | fuseOnLeaf
  /-- `debug_assert!(child.is_leaf())` in `Node::fuse` failed. -/
  | fuseChildNotLeaf
  /-- `self.size -= 1` on a `usize` that is `0` (debug-build panic). -/
  | sizeUnderflow
  /-- Indexing `self.elements[&id]` for an absent id (`EntryMut::move_entry`,
  query result resolution). -/
  | missingId
  /-- Fuel exhausted: the modelled recursion depth bound for `Node::insert`. -/
  | outOfFuel
deriving DecidableEq

/-- `Node` from `src/quadtree.rs`.  The field
`children: Option<Box<[Node; 4]>>` is represented by the constructor
split: `leaf` is a node with `children == None`, `node` carries the four
children in the array order TL, TR, BL, BR.  (A plain, non-nested
inductive keeps every operation structurally recursive and hence
computable by kernel reduction.) -/
inductive Node where
  | leaf (region : Rect) (elements : List (Nat × Rect)) (depth : Nat) (size : Nat)
  | node (region : Rect) (elements : List (Nat × Rect)) (c1 c2 c3 c4 : Node)
         (depth : Nat) (size : Nat)

namespace Node

def region : Node → Rect
  | leaf r _ _ _ => r
  | node r _ _ _ _ _ _ _ => r

def elements : Node → List (Nat × Rect)
  | leaf _ e _ _ => e
  | node _ e _ _ _ _ _ _ => e

def depth : Node → Nat
  | leaf _ _ d _ => d
  | node _ _ _ _ _ _ d _ => d

def size : Node → Nat
  | leaf _ _ _ s => s
  | node _ _ _ _ _ _ _ s => s

/-- The `children` field as the source has it. -/
def children : Node → Option (Node × Node × Node × Node)
  | leaf _ _ _ _ => none
  | node _ _ c1 c2 c3 c4 _ _ => some (c1, c2, c3, c4)

/-- `Node::is_leaf` -/
def is_leaf : Node → Bool
  | leaf _ _ _ _ => true
  | node _ _ _ _ _ _ _ _ => false

/-- `Node::new` -/
def new (region : Rect) : Node := leaf region [] 0 0

/-- All (id, region) pairs recorded in a subtree: the node's own `elements`
followed by the children's, in TL, TR, BL, BR order. -/
def idRegions : Node → List (Nat × Rect)
  | leaf _ e _ _ => e
  | node _ e c1 c2 c3 c4 _ _ =>
      e ++ (c1.idRegions ++ (c2.idRegions ++ (c3.idRegions ++ c4.idRegions)))

/-- `Node::get_all` -/
def get_all : Node → List Nat
  | leaf _ e _ _ => e.map Prod.fst
  | node _ e c1 c2 c3 c4 _ _ =>
      e.map Prod.fst ++ (c1.get_all ++ (c2.get_all ++ (c3.get_all ++ c4.get_all)))

/-- `Node::get_contained`: per child, a query fully containing the child's
region collects the whole subtree, an overlapping one recurses, any other
is pruned. -/
def get_contained : Node → Rect → List Nat
  | leaf _ e _ _, region => (e.filter (fun p => region.contains p.2)).map Prod.fst
  | node _ e c1 c2 c3 c4 _ _, region =>
      (e.filter (fun p => region.contains p.2)).map Prod.fst ++
      ((if region.contains c1.region then c1.get_all
        else if region.overlapps c1.region then get_contained c1 region else []) ++
       ((if region.contains c2.region then c2.get_all
         else if region.overlapps c2.region then get_contained c2 region else []) ++
        ((if region.contains c3.region then c3.get_all
          else if region.overlapps c3.region then get_contained c3 region else []) ++
         (if region.contains c4.region then c4.get_all
          else if region.overlapps c4.region then get_contained c4 region else []))))

/-- `Node::get_overlapped`: same pruning strategy with the overlap
predicate on local elements. -/
def get_overlapped : Node → Rect → List Nat
  | leaf _ e _ _, region => (e.filter (fun p => region.overlapps p.2)).map Prod.fst
  | node _ e c1 c2 c3 c4 _ _, region =>
      (e.filter (fun p => region.overlapps p.2)).map Prod.fst ++
      ((if region.contains c1.region then c1.get_all
        else if region.overlapps c1.region then get_overlapped c1 region else []) ++
       ((if region.contains c2.region then c2.get_all
         else if region.overlapps c2.region then get_overlapped c2 region else []) ++
        ((if region.contains c3.region then c3.get_all
          else if region.overlapps c3.region then get_overlapped c3 region else []) ++
         (if region.contains c4.region then c4.get_all
          else if region.overlapps c4.region then get_overlapped c4 region else []))))

/-- The four quadrant regions produced by `Node::subdivide`, in source
order: top-left, top-right, bottom-left, bottom-right. -/
def quadTL (r : Rect) : Rect := Rect.new r.x r.y r.w.half r.h.half

def quadTR (r : Rect) : Rect := Rect.new (r.x.add r.w.half) r.y r.w.half r.h.half

def quadBL (r : Rect) : Rect := Rect.new r.x (r.y.add r.h.half) r.w.half r.h.half

def quadBR (r : Rect) : Rect :=
  Rect.new (r.x.add r.w.half) (r.y.add r.h.half) r.w.half r.h.half

/-- The `new_self` of `Node::subdivide` just before the re-insertion
loop: same region, four fresh children — empty leaves over the four
quadrants at the old `depth + 1` — and no local elements yet.  Its own
`depth` is 0: `new_self` is built with `Node::new(self.region)` (whose
depth is 0) and the source never copies the old depth over before
`*self = new_self`, so subdividing resets the node's depth. -/
def subdivideStart (n : Node) : Node :=
  node n.region []
    (leaf (quadTL n.region) [] (n.depth + 1) 0)
    (leaf (quadTR n.region) [] (n.depth + 1) 0)
    (leaf (quadBL n.region) [] (n.depth + 1) 0)
    (leaf (quadBR n.region) [] (n.depth + 1) 0)
    0 0

/-- `Node::insert`.  The `assert!` is the containment check; the leaf
fast path needs no fuel; the recursive paths (the subdivide re-insertion
loop, descending into a child) consume one unit of fuel per level.
In the source, a leaf at exactly `max_node_capacity` subdivides and falls
through to the non-leaf path; a leaf beyond (unreachable for a healthy
tree) increments `size` and then panics unwrapping `children`, which the
model reports as `Fault.childrenMissing`. -/
def insert : Nat → Node → Nat → Rect → Nat → Except Fault Node
  | fuel, n, id, rg, cap =>
    if !(n.region.contains rg) then throw Fault.assertContainmentFailed else
    if n.is_leaf && decide (n.elements.length < cap) then
      pure (leaf n.region (mapInsert id rg n.elements) n.depth (n.size + 1))
    else
      match fuel with
      | 0 => throw Fault.outOfFuel
      | fuel' + 1 => do
        let n1 ←
          if n.is_leaf && decide (n.elements.length = cap) then
            n.elements.foldlM (fun acc p => insert fuel' acc p.1 p.2 cap)
              (subdivideStart n)
          else pure n
        match n1 with
        | Node.leaf _ _ _ _ => throw Fault.childrenMissing
        | Node.node reg elems c1 c2 c3 c4 d sz =>
          if c1.region.contains rg then do
            let c1' ← insert fuel' c1 id rg cap
            pure (node reg elems c1' c2 c3 c4 d (sz + 1))
          else if c2.region.contains rg then do
            let c2' ← insert fuel' c2 id rg cap
            pure (node reg elems c1 c2' c3 c4 d (sz + 1))
          else if c3.region.contains rg then do
            let c3' ← insert fuel' c3 id rg cap
            pure (node reg elems c1 c2 c3' c4 d (sz + 1))
          else if c4.region.contains rg then do
            let c4' ← insert fuel' c4 id rg cap
            pure (node reg elems c1 c2 c3 c4' d (sz + 1))
          else
            pure (node reg (mapInsert id rg elems) c1 c2 c3 c4 d (sz + 1))

/-- `Node::subdivide`: rebuild the node as `subdivideStart` and re-insert
every locally stored element via the same `insert` logic.  (This is
exactly the expression `insert` uses for a leaf at capacity.) -/
def subdivide (fuel : Nat) (n : Node) (cap : Nat) : Except Fault Node :=
  n.elements.foldlM (fun acc p => insert fuel acc p.1 p.2 cap) (subdivideStart n)

/-- `Node::fuse`: merge the four children's local elements into this node
and become a leaf.  Faults on a leaf or on a non-leaf child
(`debug_assert!`s plus the `unwrap`). -/
def fuse : Node → Except Fault Node
  | leaf _ _ _ _ => throw Fault.fuseOnLeaf
  | node reg elems c1 c2 c3 c4 d sz =>
    if !c1.is_leaf then throw Fault.fuseChildNotLeaf
    else if !c2.is_leaf then throw Fault.fuseChildNotLeaf
    else if !c3.is_leaf then throw Fault.fuseChildNotLeaf
    else if !c4.is_leaf then throw Fault.fuseChildNotLeaf
    else
      let children_elements :=
        mapExtend (mapExtend (mapExtend c1.elements c2.elements) c3.elements)
          c4.elements
      pure (leaf reg (mapExtend elems children_elements) d sz)

/-- `Node::remove`: decrement `size` (faulting on underflow as a debug
build does), recurse into the first child whose region contains the given
region, drop the id from the local elements, and fuse when the size has
fallen to exactly `max_node_capacity`. -/
def remove : Node → Nat → Rect → Nat → Except Fault Node
  | leaf reg elems d sz, id, _, cap =>
      if sz = 0 then throw Fault.sizeUnderflow else
      let n' := leaf reg (mapErase id elems) d (sz - 1)
      if sz - 1 = cap then n'.fuse else pure n'
  | node reg elems c1 c2 c3 c4 d sz, id, rg, cap => do
      if sz = 0 then throw Fault.sizeUnderflow else
      let n' ←
        if c1.region.contains rg then do
          let c1' ← remove c1 id rg cap
          pure (node reg (mapErase id elems) c1' c2 c3 c4 d (sz - 1))
        else if c2.region.contains rg then do
          let c2' ← remove c2 id rg cap
          pure (node reg (mapErase id elems) c1 c2' c3 c4 d (sz - 1))
        else if c3.region.contains rg then do
          let c3' ← remove c3 id rg cap
          pure (node reg (mapErase id elems) c1 c2 c3' c4 d (sz - 1))
        else if c4.region.contains rg then do
          let c4' ← remove c4 id rg cap
          pure (node reg (mapErase id elems) c1 c2 c3 c4' d (sz - 1))
        else
          pure (node reg (mapErase id elems) c1 c2 c3 c4 d (sz - 1))
      if sz - 1 = cap then n'.fuse else pure n'

/-- `Node::move_element`: three-way dispatch on the first child whose
region contains `old_region`: recurse when it also contains `new_region`;
remove from it, decrement size and re-insert here when it contains only
`old_region`; otherwise remove locally and re-insert here. -/
def move_element : Nat → Node → Nat → Rect → Rect → Nat → Except Fault Node
  | fuel, node reg elems c1 c2 c3 c4 d sz, id, old_region, new_region, cap =>
    if c1.region.contains old_region then
      if c1.region.contains new_region then do
        let c1' ← move_element fuel c1 id old_region new_region cap
        pure (node reg elems c1' c2 c3 c4 d sz)
      else do
        let c1' ← remove c1 id old_region cap
        if sz = 0 then throw Fault.sizeUnderflow else
        insert fuel (node reg elems c1' c2 c3 c4 d (sz - 1)) id new_region cap
    else if c2.region.contains old_region then
      if c2.region.contains new_region then do
        let c2' ← move_element fuel c2 id old_region new_region cap
        pure (node reg elems c1 c2' c3 c4 d sz)
      else do
        let c2' ← remove c2 id old_region cap
        if sz = 0 then throw Fault.sizeUnderflow else
        insert fuel (node reg elems c1 c2' c3 c4 d (sz - 1)) id new_region cap
    else if c3.region.contains old_region then
      if c3.region.contains new_region then do
        let c3' ← move_element fuel c3 id old_region new_region cap
        pure (node reg elems c1 c2 c3' c4 d sz)
      else do
        let c3' ← remove c3 id old_region cap
        if sz = 0 then throw Fault.sizeUnderflow else
        insert fuel (node reg elems c1 c2 c3' c4 d (sz - 1)) id new_region cap
    else if c4.region.contains old_region then
      if c4.region.contains new_region then do
        let c4' ← move_element fuel c4 id old_region new_region cap
        pure (node reg elems c1 c2 c3 c4' d sz)
      else do
        let c4' ← remove c4 id old_region cap
        if sz = 0 then throw Fault.sizeUnderflow else
        insert fuel (node reg elems c1 c2 c3 c4' d (sz - 1)) id new_region cap
    else
      if sz = 0 then throw Fault.sizeUnderflow else
      insert fuel (node reg (mapErase id elems) c1 c2 c3 c4 d (sz - 1))
        id new_region cap
  | fuel, leaf reg elems d sz, id, _, new_region, cap =>
      if sz = 0 then throw Fault.sizeUnderflow else
      insert fuel (leaf reg (mapErase id elems) d (sz - 1)) id new_region cap

end Node

/-- `Quadtree<T>` from `src/quadtree.rs`. -/
structure Quadtree (α : Type) where
  max_node_capacity : Nat
  root : Node
  elements : List (Nat × (α × Rect))
  next_id : Nat

namespace Quadtree

/-- `Quadtree::new` -/
def new (α : Type) (region : Rect) (cap : Nat) : Quadtree α :=
  ⟨cap, Node.new region, [], 0⟩

/-- `Quadtree::is_empty` — the source returns the constant `true`. -/
def is_empty (_q : Quadtree α) : Bool := true

/-- `Quadtree::size`: the authoritative store's cardinality. -/
def size (q : Quadtree α) : Nat := q.elements.length

/-- `Quadtree::insert`: allocate the next id, store in the authoritative
map, mirror into the Node tree, return the id. -/
def insertQ (fuel : Nat) (q : Quadtree α) (element : α) (region : Rect) :
    Except Fault (Nat × Quadtree α) := do
  let id := q.next_id
  let elems := mapInsert id (element, region) q.elements
  let root' ← q.root.insert fuel id region q.max_node_capacity
  pure (id, ⟨q.max_node_capacity, root', elems, id + 1⟩)

/-- `Quadtree::remove`: remove from the authoritative map; if the id was
present, also remove from the Node tree and return the removed pair. -/
def removeQ (q : Quadtree α) (id : Nat) :
    Except Fault (Option (α × Rect) × Quadtree α) := do
  let elems := mapErase id q.elements
  match mapLookup id q.elements with
  | some (element, region) => do
      let root' ← q.root.remove id region q.max_node_capacity
      pure (some (element, region), ⟨q.max_node_capacity, root', elems, q.next_id⟩)
  | none =>
      pure (none, ⟨q.max_node_capacity, q.root, elems, q.next_id⟩)

/-- `Quadtree::move_element` (private): forwards to the root Node.  Note:
the authoritative map is not touched. -/
def move_elementQ (fuel : Nat) (q : Quadtree α) (id : Nat)
    (old_region new_region : Rect) : Except Fault (Quadtree α) := do
  let root' ← q.root.move_element fuel id old_region new_region q.max_node_capacity
  pure ⟨q.max_node_capacity, root', q.elements, q.next_id⟩

/-- `Quadtree::entry_mut(id)` followed by `EntryMut::move_entry(new_region)`:
looks up the authoritative store's recorded region (indexing faults on an
absent id) and re-runs the Node-tree move with it as `old_region`. -/
def moveEntry (fuel : Nat) (q : Quadtree α) (id : Nat) (new_region : Rect) :
    Except Fault (Quadtree α) := do
  match mapLookup id q.elements with
  | none => throw Fault.missingId
  | some (_, old_region) => move_elementQ fuel q id old_region new_region

/-- `Quadtree::get_contained`: resolve matching ids from the Node tree to
values through the authoritative map (indexing faults on an absent id). -/
def get_containedQ (q : Quadtree α) (region : Rect) : Except Fault (List α) :=
  (q.root.get_contained region).mapM (fun id =>
    match mapLookup id q.elements with
    | some (v, _) => pure v
    | none => throw Fault.missingId)

/-- `Quadtree::get_overlapped`, same resolution as `get_containedQ`. -/
def get_overlappedQ (q : Quadtree α) (region : Rect) : Except Fault (List α) :=
  (q.root.get_overlapped region).mapM (fun id =>
    match mapLookup id q.elements with
    | some (v, _) => pure v
    | none => throw Fault.missingId)

/-- `Quadtree::contains` (requires `T: PartialEq`). -/
def containsV [DecidableEq α] (q : Quadtree α) (element : α) : Bool :=
  q.elements.any (fun p => p.2.1 = element)

end Quadtree

/-! ## Sequences of public operations

The public mutating interface of `Quadtree<T>`: `insert`, `remove`, and
the move exposed through `entry_mut(id).move_entry(new_region)`.  A
sequence of these, run from `Quadtree::new`, generates exactly the
reachable states the specification's invariant claims quantify over. -/

/-- One public mutating operation (value type fixed to `Nat`). -/
inductive QOp where
  | opInsert (v : Nat) (r : Rect)
  | opRemove (id : Nat)
  | opMove (id : Nat) (r : Rect)

/-- Run one public operation. -/
def runOp (fuel : Nat) (q : Quadtree Nat) : QOp → Except Fault (Quadtree Nat)
  | .opInsert v r => (Quadtree.insertQ fuel q v r).map Prod.snd
  | .opRemove id => (Quadtree.removeQ q id).map Prod.snd
  | .opMove id r => Quadtree.moveEntry fuel q id r

/-- Run a sequence of public operations. -/
def runOps (fuel : Nat) (q : Quadtree Nat) (ops : List QOp) :
    Except Fault (Quadtree Nat) :=
  ops.foldlM (runOp fuel) q

/-- Every region an operation supplies is contained in the given (root)
region; `remove` supplies none. -/
def opRegionContained (rootRegion : Rect) : QOp → Bool
  | .opInsert _ r => rootRegion.contains r
  | .opRemove _ => true
  | .opMove _ r => rootRegion.contains r

/-! ## Concrete states exercising the defect in `Quadtree::move_element`

`Quadtree::move_element` forwards to `Node::move_element` but never
writes the new region back into the authoritative `elements` map. -/

/-- An empty tree over (0,0)–(100,100) with `max_node_capacity = 5`. -/
def qStart5 : Quadtree Nat := Quadtree.new Nat (Rect.new 0 0 100 100) 5

/-- Insert value 42 at (10,10,10,10) (getting id 0), then move id 0 to
(60,60,5,5) through the mutable entry handle. -/
def qMoved : Except Fault (Quadtree Nat) :=
  runOps 20 qStart5
    [QOp.opInsert 42 (Rect.new 10 10 10 10), QOp.opMove 0 (Rect.new 60 60 5 5)]

/-- An empty tree over (0,0)–(100,100) with `max_node_capacity = 2`. -/
def qStart2 : Quadtree Nat := Quadtree.new Nat (Rect.new 0 0 100 100) 2

/-- Five inserts (ids 0–4: three to force a root subdivision, id 3 into the
bottom-right quadrant plus a second occupant id 4 of that quadrant), then a
move of id 3 to the top-left quadrant.  The authoritative map still records
id 3's old region afterwards. -/
def movedGhostOps : List QOp :=
  [QOp.opInsert 10 (Rect.new 10 10 4 4), QOp.opInsert 11 (Rect.new 60 10 4 4),
   QOp.opInsert 12 (Rect.new 10 60 4 4), QOp.opInsert 13 (Rect.new 60 60 4 4),
   QOp.opInsert 14 (Rect.new 80 80 4 4), QOp.opMove 3 (Rect.new 10 30 4 4)]

/-- The state reached by `movedGhostOps`. -/
def qGhost : Except Fault (Quadtree Nat) := runOps 20 qStart2 movedGhostOps

/-- `movedGhostOps` followed by removals that leave the tree in a corrupted
fused state: removing id 3 uses the stale stored region and leaves its tree
record behind as a ghost; removing ids 1 and 2 then drives the root's size
to the capacity threshold and fuses the root. -/
def corruptOps : List QOp :=
  movedGhostOps ++ [QOp.opRemove 3, QOp.opRemove 1, QOp.opRemove 2]

/-- `corruptOps` continued with one more removal and a fresh insert; every
region is inside the root's region and no operation faults. -/
def sizeSkewOps : List QOp :=
  corruptOps ++ [QOp.opRemove 0, QOp.opInsert 15 (Rect.new 10 10 4 4)]


/-- Unfolding `runOps` over a successful first operation. -/
theorem runOps_cons_ok {fuel : Nat} {q q' : Quadtree Nat} {op : QOp} {ops : List QOp}
    (h : runOp fuel q op = Except.ok q') :
    runOps fuel q (op :: ops) = runOps fuel q' ops := by
  simp only [runOps, List.foldlM, h]
  rfl

/-- Unfolding `runOps` over a faulting first operation. -/
theorem runOps_cons_err {fuel : Nat} {q : Quadtree Nat} {op : QOp} {ops : List QOp}
    {e : Fault} (h : runOp fuel q op = Except.error e) :
    runOps fuel q (op :: ops) = Except.error e := by
  simp only [runOps, List.foldlM, h]
  rfl

theorem runOps_nil {fuel : Nat} {q : Quadtree Nat} : runOps fuel q [] = Except.ok q := rfl

/-! ### The intermediate states of the `sizeSkewOps` run (ids 0–4 are the
five inserted elements; `qT6` is the state after the move of id 3, `qT9`
the corrupted fused state, `qT11` the final state). -/

def qT1 : Quadtree Nat :=
  ⟨2,
  Node.leaf ⟨⟨0, 1⟩, ⟨0, 1⟩, ⟨100, 1⟩, ⟨100, 1⟩⟩ [(0, ⟨⟨10, 1⟩, ⟨10, 1⟩, ⟨4, 1⟩, ⟨4, 1⟩⟩)] 0 1,
  [(0, (10, ⟨⟨10, 1⟩, ⟨10, 1⟩, ⟨4, 1⟩, ⟨4, 1⟩⟩))], 1⟩

def qT2 : Quadtree Nat :=
  ⟨2,
  Node.leaf ⟨⟨0, 1⟩, ⟨0, 1⟩, ⟨100, 1⟩, ⟨100, 1⟩⟩ [(0, ⟨⟨10, 1⟩, ⟨10, 1⟩, ⟨4, 1⟩, ⟨4, 1⟩⟩), (1, ⟨⟨60, 1⟩, ⟨10, 1⟩, ⟨4, 1⟩, ⟨4, 1⟩⟩)] 0 2,
  [(0, (10, ⟨⟨10, 1⟩, ⟨10, 1⟩, ⟨4, 1⟩, ⟨4, 1⟩⟩)), (1, (11, ⟨⟨60, 1⟩, ⟨10, 1⟩, ⟨4, 1⟩, ⟨4, 1⟩⟩))], 2⟩

def qT3 : Quadtree Nat :=
  ⟨2,
  Node.node ⟨⟨0, 1⟩, ⟨0, 1⟩, ⟨100, 1⟩, ⟨100, 1⟩⟩ [] (Node.leaf ⟨⟨0, 1⟩, ⟨0, 1⟩, ⟨100, 2⟩, ⟨100, 2⟩⟩ [(0, ⟨⟨10, 1⟩, ⟨10, 1⟩, ⟨4, 1⟩, ⟨4, 1⟩⟩)] 1 1) (Node.leaf ⟨⟨100, 2⟩, ⟨0, 1⟩, ⟨100, 2⟩, ⟨100, 2⟩⟩ [(1, ⟨⟨60, 1⟩, ⟨10, 1⟩, ⟨4, 1⟩, ⟨4, 1⟩⟩)] 1 1) (Node.leaf ⟨⟨0, 1⟩, ⟨100, 2⟩, ⟨100, 2⟩, ⟨100, 2⟩⟩ [(2, ⟨⟨10, 1⟩, ⟨60, 1⟩, ⟨4, 1⟩, ⟨4, 1⟩⟩)] 1 1) (Node.leaf ⟨⟨100, 2⟩, ⟨100, 2⟩, ⟨100, 2⟩, ⟨100, 2⟩⟩ [] 1 0) 0 3,
  [(0, (10, ⟨⟨10, 1⟩, ⟨10, 1⟩, ⟨4, 1⟩, ⟨4, 1⟩⟩)), (1, (11, ⟨⟨60, 1⟩, ⟨10, 1⟩, ⟨4, 1⟩, ⟨4, 1⟩⟩)), (2, (12, ⟨⟨10, 1⟩, ⟨60, 1⟩, ⟨4, 1⟩, ⟨4, 1⟩⟩))], 3⟩

def qT4 : Quadtree Nat :=
  ⟨2,
  Node.node ⟨⟨0, 1⟩, ⟨0, 1⟩, ⟨100, 1⟩, ⟨100, 1⟩⟩ [] (Node.leaf ⟨⟨0, 1⟩, ⟨0, 1⟩, ⟨100, 2⟩, ⟨100, 2⟩⟩ [(0, ⟨⟨10, 1⟩, ⟨10, 1⟩, ⟨4, 1⟩, ⟨4, 1⟩⟩)] 1 1) (Node.leaf ⟨⟨100, 2⟩, ⟨0, 1⟩, ⟨100, 2⟩, ⟨100, 2⟩⟩ [(1, ⟨⟨60, 1⟩, ⟨10, 1⟩, ⟨4, 1⟩, ⟨4, 1⟩⟩)] 1 1) (Node.leaf ⟨⟨0, 1⟩, ⟨100, 2⟩, ⟨100, 2⟩, ⟨100, 2⟩⟩ [(2, ⟨⟨10, 1⟩, ⟨60, 1⟩, ⟨4, 1⟩, ⟨4, 1⟩⟩)] 1 1) (Node.leaf ⟨⟨100, 2⟩, ⟨100, 2⟩, ⟨100, 2⟩, ⟨100, 2⟩⟩ [(3, ⟨⟨60, 1⟩, ⟨60, 1⟩, ⟨4, 1⟩, ⟨4, 1⟩⟩)] 1 1) 0 4,
  [(0, (10, ⟨⟨10, 1⟩, ⟨10, 1⟩, ⟨4, 1⟩, ⟨4, 1⟩⟩)), (1, (11, ⟨⟨60, 1⟩, ⟨10, 1⟩, ⟨4, 1⟩, ⟨4, 1⟩⟩)), (2, (12, ⟨⟨10, 1⟩, ⟨60, 1⟩, ⟨4, 1⟩, ⟨4, 1⟩⟩)), (3, (13, ⟨⟨60, 1⟩, ⟨60, 1⟩, ⟨4, 1⟩, ⟨4, 1⟩⟩))], 4⟩

def qT5 : Quadtree Nat :=
  ⟨2,
  Node.node ⟨⟨0, 1⟩, ⟨0, 1⟩, ⟨100, 1⟩, ⟨100, 1⟩⟩ [] (Node.leaf ⟨⟨0, 1⟩, ⟨0, 1⟩, ⟨100, 2⟩, ⟨100, 2⟩⟩ [(0, ⟨⟨10, 1⟩, ⟨10, 1⟩, ⟨4, 1⟩, ⟨4, 1⟩⟩)] 1 1) (Node.leaf ⟨⟨100, 2⟩, ⟨0, 1⟩, ⟨100, 2⟩, ⟨100, 2⟩⟩ [(1, ⟨⟨60, 1⟩, ⟨10, 1⟩, ⟨4, 1⟩, ⟨4, 1⟩⟩)] 1 1) (Node.leaf ⟨⟨0, 1⟩, ⟨100, 2⟩, ⟨100, 2⟩, ⟨100, 2⟩⟩ [(2, ⟨⟨10, 1⟩, ⟨60, 1⟩, ⟨4, 1⟩, ⟨4, 1⟩⟩)] 1 1) (Node.leaf ⟨⟨100, 2⟩, ⟨100, 2⟩, ⟨100, 2⟩, ⟨100, 2⟩⟩ [(3, ⟨⟨60, 1⟩, ⟨60, 1⟩, ⟨4, 1⟩, ⟨4, 1⟩⟩), (4, ⟨⟨80, 1⟩, ⟨80, 1⟩, ⟨4, 1⟩, ⟨4, 1⟩⟩)] 1 2) 0 5,
  [(0, (10, ⟨⟨10, 1⟩, ⟨10, 1⟩, ⟨4, 1⟩, ⟨4, 1⟩⟩)), (1, (11, ⟨⟨60, 1⟩, ⟨10, 1⟩, ⟨4, 1⟩, ⟨4, 1⟩⟩)), (2, (12, ⟨⟨10, 1⟩, ⟨60, 1⟩, ⟨4, 1⟩, ⟨4, 1⟩⟩)), (3, (13, ⟨⟨60, 1⟩, ⟨60, 1⟩, ⟨4, 1⟩, ⟨4, 1⟩⟩)), (4, (14, ⟨⟨80, 1⟩, ⟨80, 1⟩, ⟨4, 1⟩, ⟨4, 1⟩⟩))], 5⟩

def qT6 : Quadtree Nat :=
  ⟨2,
  Node.node ⟨⟨0, 1⟩, ⟨0, 1⟩, ⟨100, 1⟩, ⟨100, 1⟩⟩ [] (Node.leaf ⟨⟨0, 1⟩, ⟨0, 1⟩, ⟨100, 2⟩, ⟨100, 2⟩⟩ [(0, ⟨⟨10, 1⟩, ⟨10, 1⟩, ⟨4, 1⟩, ⟨4, 1⟩⟩), (3, ⟨⟨10, 1⟩, ⟨30, 1⟩, ⟨4, 1⟩, ⟨4, 1⟩⟩)] 1 2) (Node.leaf ⟨⟨100, 2⟩, ⟨0, 1⟩, ⟨100, 2⟩, ⟨100, 2⟩⟩ [(1, ⟨⟨60, 1⟩, ⟨10, 1⟩, ⟨4, 1⟩, ⟨4, 1⟩⟩)] 1 1) (Node.leaf ⟨⟨0, 1⟩, ⟨100, 2⟩, ⟨100, 2⟩, ⟨100, 2⟩⟩ [(2, ⟨⟨10, 1⟩, ⟨60, 1⟩, ⟨4, 1⟩, ⟨4, 1⟩⟩)] 1 1) (Node.leaf ⟨⟨100, 2⟩, ⟨100, 2⟩, ⟨100, 2⟩, ⟨100, 2⟩⟩ [(4, ⟨⟨80, 1⟩, ⟨80, 1⟩, ⟨4, 1⟩, ⟨4, 1⟩⟩)] 1 1) 0 5,
  [(0, (10, ⟨⟨10, 1⟩, ⟨10, 1⟩, ⟨4, 1⟩, ⟨4, 1⟩⟩)), (1, (11, ⟨⟨60, 1⟩, ⟨10, 1⟩, ⟨4, 1⟩, ⟨4, 1⟩⟩)), (2, (12, ⟨⟨10, 1⟩, ⟨60, 1⟩, ⟨4, 1⟩, ⟨4, 1⟩⟩)), (3, (13, ⟨⟨60, 1⟩, ⟨60, 1⟩, ⟨4, 1⟩, ⟨4, 1⟩⟩)), (4, (14, ⟨⟨80, 1⟩, ⟨80, 1⟩, ⟨4, 1⟩, ⟨4, 1⟩⟩))], 5⟩

def qT7 : Quadtree Nat :=
  ⟨2,
  Node.node ⟨⟨0, 1⟩, ⟨0, 1⟩, ⟨100, 1⟩, ⟨100, 1⟩⟩ [] (Node.leaf ⟨⟨0, 1⟩, ⟨0, 1⟩, ⟨100, 2⟩, ⟨100, 2⟩⟩ [(0, ⟨⟨10, 1⟩, ⟨10, 1⟩, ⟨4, 1⟩, ⟨4, 1⟩⟩), (3, ⟨⟨10, 1⟩, ⟨30, 1⟩, ⟨4, 1⟩, ⟨4, 1⟩⟩)] 1 2) (Node.leaf ⟨⟨100, 2⟩, ⟨0, 1⟩, ⟨100, 2⟩, ⟨100, 2⟩⟩ [(1, ⟨⟨60, 1⟩, ⟨10, 1⟩, ⟨4, 1⟩, ⟨4, 1⟩⟩)] 1 1) (Node.leaf ⟨⟨0, 1⟩, ⟨100, 2⟩, ⟨100, 2⟩, ⟨100, 2⟩⟩ [(2, ⟨⟨10, 1⟩, ⟨60, 1⟩, ⟨4, 1⟩, ⟨4, 1⟩⟩)] 1 1) (Node.leaf ⟨⟨100, 2⟩, ⟨100, 2⟩, ⟨100, 2⟩, ⟨100, 2⟩⟩ [(4, ⟨⟨80, 1⟩, ⟨80, 1⟩, ⟨4, 1⟩, ⟨4, 1⟩⟩)] 1 0) 0 4,
  [(0, (10, ⟨⟨10, 1⟩, ⟨10, 1⟩, ⟨4, 1⟩, ⟨4, 1⟩⟩)), (1, (11, ⟨⟨60, 1⟩, ⟨10, 1⟩, ⟨4, 1⟩, ⟨4, 1⟩⟩)), (2, (12, ⟨⟨10, 1⟩, ⟨60, 1⟩, ⟨4, 1⟩, ⟨4, 1⟩⟩)), (4, (14, ⟨⟨80, 1⟩, ⟨80, 1⟩, ⟨4, 1⟩, ⟨4, 1⟩⟩))], 5⟩

def qT8 : Quadtree Nat :=
  ⟨2,
  Node.node ⟨⟨0, 1⟩, ⟨0, 1⟩, ⟨100, 1⟩, ⟨100, 1⟩⟩ [] (Node.leaf ⟨⟨0, 1⟩, ⟨0, 1⟩, ⟨100, 2⟩, ⟨100, 2⟩⟩ [(0, ⟨⟨10, 1⟩, ⟨10, 1⟩, ⟨4, 1⟩, ⟨4, 1⟩⟩), (3, ⟨⟨10, 1⟩, ⟨30, 1⟩, ⟨4, 1⟩, ⟨4, 1⟩⟩)] 1 2) (Node.leaf ⟨⟨100, 2⟩, ⟨0, 1⟩, ⟨100, 2⟩, ⟨100, 2⟩⟩ [] 1 0) (Node.leaf ⟨⟨0, 1⟩, ⟨100, 2⟩, ⟨100, 2⟩, ⟨100, 2⟩⟩ [(2, ⟨⟨10, 1⟩, ⟨60, 1⟩, ⟨4, 1⟩, ⟨4, 1⟩⟩)] 1 1) (Node.leaf ⟨⟨100, 2⟩, ⟨100, 2⟩, ⟨100, 2⟩, ⟨100, 2⟩⟩ [(4, ⟨⟨80, 1⟩, ⟨80, 1⟩, ⟨4, 1⟩, ⟨4, 1⟩⟩)] 1 0) 0 3,
  [(0, (10, ⟨⟨10, 1⟩, ⟨10, 1⟩, ⟨4, 1⟩, ⟨4, 1⟩⟩)), (2, (12, ⟨⟨10, 1⟩, ⟨60, 1⟩, ⟨4, 1⟩, ⟨4, 1⟩⟩)), (4, (14, ⟨⟨80, 1⟩, ⟨80, 1⟩, ⟨4, 1⟩, ⟨4, 1⟩⟩))], 5⟩

def qT9 : Quadtree Nat :=
  ⟨2,
  Node.leaf ⟨⟨0, 1⟩, ⟨0, 1⟩, ⟨100, 1⟩, ⟨100, 1⟩⟩ [(0, ⟨⟨10, 1⟩, ⟨10, 1⟩, ⟨4, 1⟩, ⟨4, 1⟩⟩), (3, ⟨⟨10, 1⟩, ⟨30, 1⟩, ⟨4, 1⟩, ⟨4, 1⟩⟩), (4, ⟨⟨80, 1⟩, ⟨80, 1⟩, ⟨4, 1⟩, ⟨4, 1⟩⟩)] 0 2,
  [(0, (10, ⟨⟨10, 1⟩, ⟨10, 1⟩, ⟨4, 1⟩, ⟨4, 1⟩⟩)), (4, (14, ⟨⟨80, 1⟩, ⟨80, 1⟩, ⟨4, 1⟩, ⟨4, 1⟩⟩))], 5⟩

def qT10 : Quadtree Nat :=
  ⟨2,
  Node.leaf ⟨⟨0, 1⟩, ⟨0, 1⟩, ⟨100, 1⟩, ⟨100, 1⟩⟩ [(3, ⟨⟨10, 1⟩, ⟨30, 1⟩, ⟨4, 1⟩, ⟨4, 1⟩⟩), (4, ⟨⟨80, 1⟩, ⟨80, 1⟩, ⟨4, 1⟩, ⟨4, 1⟩⟩)] 0 1,
  [(4, (14, ⟨⟨80, 1⟩, ⟨80, 1⟩, ⟨4, 1⟩, ⟨4, 1⟩⟩))], 5⟩

def qT11 : Quadtree Nat :=
  ⟨2,
  Node.node ⟨⟨0, 1⟩, ⟨0, 1⟩, ⟨100, 1⟩, ⟨100, 1⟩⟩ [] (Node.leaf ⟨⟨0, 1⟩, ⟨0, 1⟩, ⟨100, 2⟩, ⟨100, 2⟩⟩ [(3, ⟨⟨10, 1⟩, ⟨30, 1⟩, ⟨4, 1⟩, ⟨4, 1⟩⟩), (5, ⟨⟨10, 1⟩, ⟨10, 1⟩, ⟨4, 1⟩, ⟨4, 1⟩⟩)] 1 2) (Node.leaf ⟨⟨100, 2⟩, ⟨0, 1⟩, ⟨100, 2⟩, ⟨100, 2⟩⟩ [] 1 0) (Node.leaf ⟨⟨0, 1⟩, ⟨100, 2⟩, ⟨100, 2⟩, ⟨100, 2⟩⟩ [] 1 0) (Node.leaf ⟨⟨100, 2⟩, ⟨100, 2⟩, ⟨100, 2⟩, ⟨100, 2⟩⟩ [(4, ⟨⟨80, 1⟩, ⟨80, 1⟩, ⟨4, 1⟩, ⟨4, 1⟩⟩)] 1 1) 0 3,
  [(4, (14, ⟨⟨80, 1⟩, ⟨80, 1⟩, ⟨4, 1⟩, ⟨4, 1⟩⟩)), (5, (15, ⟨⟨10, 1⟩, ⟨10, 1⟩, ⟨4, 1⟩, ⟨4, 1⟩⟩))], 6⟩

def qU1 : Quadtree Nat :=
  ⟨2,
  Node.leaf ⟨⟨0, 1⟩, ⟨0, 1⟩, ⟨100, 1⟩, ⟨100, 1⟩⟩ [(0, ⟨⟨2, 1⟩, ⟨2, 1⟩, ⟨4, 1⟩, ⟨4, 1⟩⟩)] 0 1,
  [(0, (1, ⟨⟨2, 1⟩, ⟨2, 1⟩, ⟨4, 1⟩, ⟨4, 1⟩⟩))], 1⟩

def qU2 : Quadtree Nat :=
  ⟨2,
  Node.leaf ⟨⟨0, 1⟩, ⟨0, 1⟩, ⟨100, 1⟩, ⟨100, 1⟩⟩ [(0, ⟨⟨2, 1⟩, ⟨2, 1⟩, ⟨4, 1⟩, ⟨4, 1⟩⟩), (1, ⟨⟨14, 1⟩, ⟨2, 1⟩, ⟨4, 1⟩, ⟨4, 1⟩⟩)] 0 2,
  [(0, (1, ⟨⟨2, 1⟩, ⟨2, 1⟩, ⟨4, 1⟩, ⟨4, 1⟩⟩)), (1, (2, ⟨⟨14, 1⟩, ⟨2, 1⟩, ⟨4, 1⟩, ⟨4, 1⟩⟩))], 2⟩

def qU3 : Quadtree Nat :=
  ⟨2,
  Node.node ⟨⟨0, 1⟩, ⟨0, 1⟩, ⟨100, 1⟩, ⟨100, 1⟩⟩ [] (Node.node ⟨⟨0, 1⟩, ⟨0, 1⟩, ⟨100, 2⟩, ⟨100, 2⟩⟩ [] (Node.node ⟨⟨0, 1⟩, ⟨0, 1⟩, ⟨100, 4⟩, ⟨100, 4⟩⟩ [] (Node.leaf ⟨⟨0, 1⟩, ⟨0, 1⟩, ⟨100, 8⟩, ⟨100, 8⟩⟩ [(0, ⟨⟨2, 1⟩, ⟨2, 1⟩, ⟨4, 1⟩, ⟨4, 1⟩⟩)] 3 1) (Node.leaf ⟨⟨100, 8⟩, ⟨0, 1⟩, ⟨100, 8⟩, ⟨100, 8⟩⟩ [(1, ⟨⟨14, 1⟩, ⟨2, 1⟩, ⟨4, 1⟩, ⟨4, 1⟩⟩)] 3 1) (Node.leaf ⟨⟨0, 1⟩, ⟨100, 8⟩, ⟨100, 8⟩, ⟨100, 8⟩⟩ [(2, ⟨⟨2, 1⟩, ⟨14, 1⟩, ⟨4, 1⟩, ⟨4, 1⟩⟩)] 3 1) (Node.leaf ⟨⟨100, 8⟩, ⟨100, 8⟩, ⟨100, 8⟩, ⟨100, 8⟩⟩ [] 3 0) 0 3) (Node.leaf ⟨⟨100, 4⟩, ⟨0, 1⟩, ⟨100, 4⟩, ⟨100, 4⟩⟩ [] 2 0) (Node.leaf ⟨⟨0, 1⟩, ⟨100, 4⟩, ⟨100, 4⟩, ⟨100, 4⟩⟩ [] 2 0) (Node.leaf ⟨⟨100, 4⟩, ⟨100, 4⟩, ⟨100, 4⟩, ⟨100, 4⟩⟩ [] 2 0) 0 3) (Node.leaf ⟨⟨100, 2⟩, ⟨0, 1⟩, ⟨100, 2⟩, ⟨100, 2⟩⟩ [] 1 0) (Node.leaf ⟨⟨0, 1⟩, ⟨100, 2⟩, ⟨100, 2⟩, ⟨100, 2⟩⟩ [] 1 0) (Node.leaf ⟨⟨100, 2⟩, ⟨100, 2⟩, ⟨100, 2⟩, ⟨100, 2⟩⟩ [] 1 0) 0 3,
  [(0, (1, ⟨⟨2, 1⟩, ⟨2, 1⟩, ⟨4, 1⟩, ⟨4, 1⟩⟩)), (1, (2, ⟨⟨14, 1⟩, ⟨2, 1⟩, ⟨4, 1⟩, ⟨4, 1⟩⟩)), (2, (3, ⟨⟨2, 1⟩, ⟨14, 1⟩, ⟨4, 1⟩, ⟨4, 1⟩⟩))], 3⟩

def qU4 : Quadtree Nat :=
  ⟨2,
  Node.node ⟨⟨0, 1⟩, ⟨0, 1⟩, ⟨100, 1⟩, ⟨100, 1⟩⟩ [] (Node.node ⟨⟨0, 1⟩, ⟨0, 1⟩, ⟨100, 2⟩, ⟨100, 2⟩⟩ [(3, ⟨⟨20, 1⟩, ⟨4, 1⟩, ⟨8, 1⟩, ⟨4, 1⟩⟩)] (Node.node ⟨⟨0, 1⟩, ⟨0, 1⟩, ⟨100, 4⟩, ⟨100, 4⟩⟩ [] (Node.leaf ⟨⟨0, 1⟩, ⟨0, 1⟩, ⟨100, 8⟩, ⟨100, 8⟩⟩ [(0, ⟨⟨2, 1⟩, ⟨2, 1⟩, ⟨4, 1⟩, ⟨4, 1⟩⟩)] 3 1) (Node.leaf ⟨⟨100, 8⟩, ⟨0, 1⟩, ⟨100, 8⟩, ⟨100, 8⟩⟩ [(1, ⟨⟨14, 1⟩, ⟨2, 1⟩, ⟨4, 1⟩, ⟨4, 1⟩⟩)] 3 1) (Node.leaf ⟨⟨0, 1⟩, ⟨100, 8⟩, ⟨100, 8⟩, ⟨100, 8⟩⟩ [(2, ⟨⟨2, 1⟩, ⟨14, 1⟩, ⟨4, 1⟩, ⟨4, 1⟩⟩)] 3 1) (Node.leaf ⟨⟨100, 8⟩, ⟨100, 8⟩, ⟨100, 8⟩, ⟨100, 8⟩⟩ [] 3 0) 0 3) (Node.leaf ⟨⟨100, 4⟩, ⟨0, 1⟩, ⟨100, 4⟩, ⟨100, 4⟩⟩ [] 2 0) (Node.leaf ⟨⟨0, 1⟩, ⟨100, 4⟩, ⟨100, 4⟩, ⟨100, 4⟩⟩ [] 2 0) (Node.leaf ⟨⟨100, 4⟩, ⟨100, 4⟩, ⟨100, 4⟩, ⟨100, 4⟩⟩ [] 2 0) 0 4) (Node.leaf ⟨⟨100, 2⟩, ⟨0, 1⟩, ⟨100, 2⟩, ⟨100, 2⟩⟩ [] 1 0) (Node.leaf ⟨⟨0, 1⟩, ⟨100, 2⟩, ⟨100, 2⟩, ⟨100, 2⟩⟩ [] 1 0) (Node.leaf ⟨⟨100, 2⟩, ⟨100, 2⟩, ⟨100, 2⟩, ⟨100, 2⟩⟩ [] 1 0) 0 4,
  [(0, (1, ⟨⟨2, 1⟩, ⟨2, 1⟩, ⟨4, 1⟩, ⟨4, 1⟩⟩)), (1, (2, ⟨⟨14, 1⟩, ⟨2, 1⟩, ⟨4, 1⟩, ⟨4, 1⟩⟩)), (2, (3, ⟨⟨2, 1⟩, ⟨14, 1⟩, ⟨4, 1⟩, ⟨4, 1⟩⟩)), (3, (4, ⟨⟨20, 1⟩, ⟨4, 1⟩, ⟨8, 1⟩, ⟨4, 1⟩⟩))], 4⟩

def qU5 : Quadtree Nat :=
  ⟨2,
  Node.node ⟨⟨0, 1⟩, ⟨0, 1⟩, ⟨100, 1⟩, ⟨100, 1⟩⟩ [] (Node.node ⟨⟨0, 1⟩, ⟨0, 1⟩, ⟨100, 2⟩, ⟨100, 2⟩⟩ [] (Node.node ⟨⟨0, 1⟩, ⟨0, 1⟩, ⟨100, 4⟩, ⟨100, 4⟩⟩ [] (Node.leaf ⟨⟨0, 1⟩, ⟨0, 1⟩, ⟨100, 8⟩, ⟨100, 8⟩⟩ [(0, ⟨⟨2, 1⟩, ⟨2, 1⟩, ⟨4, 1⟩, ⟨4, 1⟩⟩)] 3 1) (Node.leaf ⟨⟨100, 8⟩, ⟨0, 1⟩, ⟨100, 8⟩, ⟨100, 8⟩⟩ [(1, ⟨⟨14, 1⟩, ⟨2, 1⟩, ⟨4, 1⟩, ⟨4, 1⟩⟩)] 3 1) (Node.leaf ⟨⟨0, 1⟩, ⟨100, 8⟩, ⟨100, 8⟩, ⟨100, 8⟩⟩ [(2, ⟨⟨2, 1⟩, ⟨14, 1⟩, ⟨4, 1⟩, ⟨4, 1⟩⟩)] 3 1) (Node.leaf ⟨⟨100, 8⟩, ⟨100, 8⟩, ⟨100, 8⟩, ⟨100, 8⟩⟩ [] 3 0) 0 3) (Node.leaf ⟨⟨100, 4⟩, ⟨0, 1⟩, ⟨100, 4⟩, ⟨100, 4⟩⟩ [] 2 0) (Node.leaf ⟨⟨0, 1⟩, ⟨100, 4⟩, ⟨100, 4⟩, ⟨100, 4⟩⟩ [] 2 0) (Node.leaf ⟨⟨100, 4⟩, ⟨100, 4⟩, ⟨100, 4⟩, ⟨100, 4⟩⟩ [] 2 0) 0 3) (Node.leaf ⟨⟨100, 2⟩, ⟨0, 1⟩, ⟨100, 2⟩, ⟨100, 2⟩⟩ [] 1 0) (Node.leaf ⟨⟨0, 1⟩, ⟨100, 2⟩, ⟨100, 2⟩, ⟨100, 2⟩⟩ [] 1 0) (Node.leaf ⟨⟨100, 2⟩, ⟨100, 2⟩, ⟨100, 2⟩, ⟨100, 2⟩⟩ [(3, ⟨⟨60, 1⟩, ⟨60, 1⟩, ⟨8, 1⟩, ⟨4, 1⟩⟩)] 1 1) 0 4,
  [(0, (1, ⟨⟨2, 1⟩, ⟨2, 1⟩, ⟨4, 1⟩, ⟨4, 1⟩⟩)), (1, (2, ⟨⟨14, 1⟩, ⟨2, 1⟩, ⟨4, 1⟩, ⟨4, 1⟩⟩)), (2, (3, ⟨⟨2, 1⟩, ⟨14, 1⟩, ⟨4, 1⟩, ⟨4, 1⟩⟩)), (3, (4, ⟨⟨20, 1⟩, ⟨4, 1⟩, ⟨8, 1⟩, ⟨4, 1⟩⟩))], 4⟩

/-! ### One step lemma per operation (each is a single kernel evaluation). -/

theorem stepT1 : runOp 20 qStart2 (QOp.opInsert 10 (Rect.new 10 10 4 4)) = Except.ok qT1 := by rfl

theorem stepT2 : runOp 20 qT1 (QOp.opInsert 11 (Rect.new 60 10 4 4)) = Except.ok qT2 := by rfl

theorem stepT3 : runOp 20 qT2 (QOp.opInsert 12 (Rect.new 10 60 4 4)) = Except.ok qT3 := by rfl

theorem stepT4 : runOp 20 qT3 (QOp.opInsert 13 (Rect.new 60 60 4 4)) = Except.ok qT4 := by rfl

theorem stepT5 : runOp 20 qT4 (QOp.opInsert 14 (Rect.new 80 80 4 4)) = Except.ok qT5 := by rfl

theorem stepT6 : runOp 20 qT5 (QOp.opMove 3 (Rect.new 10 30 4 4)) = Except.ok qT6 := by rfl

theorem stepT7 : runOp 20 qT6 (QOp.opRemove 3) = Except.ok qT7 := by rfl

theorem stepT8 : runOp 20 qT7 (QOp.opRemove 1) = Except.ok qT8 := by rfl

theorem stepT9 : runOp 20 qT8 (QOp.opRemove 2) = Except.ok qT9 := by rfl

theorem stepT10 : runOp 20 qT9 (QOp.opRemove 0) = Except.ok qT10 := by rfl

theorem stepT11 : runOp 20 qT10 (QOp.opInsert 15 (Rect.new 10 10 4 4)) = Except.ok qT11 := by rfl

/-- From the corrupted fused state `qT9` (a leaf root holding three
entries with capacity 2), an insert with a contained region falls through
both leaf branches and unwraps the absent children. -/
theorem stepT9insErr :
    runOp 20 qT9 (QOp.opInsert 15 (Rect.new 10 10 4 4)) = Except.error Fault.childrenMissing := by rfl

/-- The `movedGhostOps` prefix reaches `qT6`. -/
theorem ghost_reached : qGhost = Except.ok qT6 := by
  have hops : movedGhostOps =
      QOp.opInsert 10 (Rect.new 10 10 4 4) :: QOp.opInsert 11 (Rect.new 60 10 4 4) ::
      QOp.opInsert 12 (Rect.new 10 60 4 4) :: QOp.opInsert 13 (Rect.new 60 60 4 4) ::
      QOp.opInsert 14 (Rect.new 80 80 4 4) :: QOp.opMove 3 (Rect.new 10 30 4 4) :: [] := rfl
  show runOps 20 qStart2 movedGhostOps = Except.ok qT6
  rw [hops, runOps_cons_ok stepT1, runOps_cons_ok stepT2, runOps_cons_ok stepT3,
      runOps_cons_ok stepT4, runOps_cons_ok stepT5, runOps_cons_ok stepT6, runOps_nil]

/-- The full `sizeSkewOps` run reaches `qT11`. -/
theorem sizeSkew_reached : runOps 20 qStart2 sizeSkewOps = Except.ok qT11 := by
  have hops : sizeSkewOps =
      QOp.opInsert 10 (Rect.new 10 10 4 4) :: QOp.opInsert 11 (Rect.new 60 10 4 4) ::
      QOp.opInsert 12 (Rect.new 10 60 4 4) :: QOp.opInsert 13 (Rect.new 60 60 4 4) ::
      QOp.opInsert 14 (Rect.new 80 80 4 4) :: QOp.opMove 3 (Rect.new 10 30 4 4) ::
      QOp.opRemove 3 :: QOp.opRemove 1 :: QOp.opRemove 2 :: QOp.opRemove 0 ::
      QOp.opInsert 15 (Rect.new 10 10 4 4) :: [] := rfl
  rw [hops, runOps_cons_ok stepT1, runOps_cons_ok stepT2, runOps_cons_ok stepT3,
      runOps_cons_ok stepT4, runOps_cons_ok stepT5, runOps_cons_ok stepT6,
      runOps_cons_ok stepT7, runOps_cons_ok stepT8, runOps_cons_ok stepT9,
      runOps_cons_ok stepT10, runOps_cons_ok stepT11, runOps_nil]

/-! ## Claim C1 -/

/-- Claim C1 (refuted — evaluation of the code at the failing input).
After `insert(42, (10,10,10,10))` (id 0) and
`entry_mut(0).move_entry((60,60,5,5))`, the Node tree records the new
region for id 0, but the authoritative store still records the old
region: `Quadtree::move_element` never overwrites the stored region, so
the two structures end inconsistent, contrary to the claim. -/
theorem c1_move_leaves_store_stale :
    qMoved.map (fun q => (mapLookup 0 q.elements, q.root.idRegions)) =
      Except.ok (some (42, Rect.new 10 10 10 10), [(0, Rect.new 60 60 5 5)]) ∧
    Rect.new 10 10 10 10 ≠ Rect.new 60 60 5 5 := by
  constructor
  · rfl
  · decide

/-! ## Claim C2 -/

/-- Claim C2 (refuted — evaluation of the code at the failing input).
In the reachable state `qMoved`, the query rectangle (50,50,30,30)
encloses no stored (authoritative) region — the only live id 0 is stored
at (10,10,10,10) — yet `get_contained` returns id 0's value, because the
Node tree holds the moved region while the store holds the stale one. -/
theorem c2_query_disagrees_with_store :
    qMoved.bind (fun q => Quadtree.get_containedQ q (Rect.new 50 50 30 30)) =
      Except.ok [42] ∧
    qMoved.map (fun q =>
      q.elements.filter (fun p => (Rect.new 50 50 30 30).contains p.2.2)) =
      Except.ok [] := by
  constructor
  · rfl
  · rfl

/-! ## Claim C3 -/

/-- Claim C3 (refuted — evaluation of the code at the failing input).
`sizeSkewOps` is a fault-free sequence of public operations, every
supplied region contained in the root's region, after which
`size()` (= authoritative-store cardinality) is 2 but the root Node's
`size` field is 3. -/
theorem c3_size_skew :
    (runOps 20 qStart2 sizeSkewOps).map
        (fun q => (Quadtree.size q, q.elements.length, q.root.size)) =
      Except.ok (2, 2, 3) ∧
    sizeSkewOps.all (opRegionContained (Rect.new 0 0 100 100)) = true := by
  constructor
  · rw [sizeSkew_reached]
    rfl
  · rfl

/-! ## Claim C4 -/

/-- The state for claim C4: capacity 3 over (0,0)–(80,80); insert value 9
at (5,5,10,10) (id 0), then move id 0 to (40,40,8,8) via the entry handle. -/
def qMoved4 : Except Fault (Quadtree Nat) :=
  runOps 20 (Quadtree.new Nat (Rect.new 0 0 80 80) 3)
    [QOp.opInsert 9 (Rect.new 5 5 10 10), QOp.opMove 0 (Rect.new 40 40 8 8)]

/-- Claim C4 (refuted — evaluation of the code at the failing input).
After the public operations of `qMoved4`, live id 0's region in the
authoritative map is (5,5,10,10) while the Node tree records (40,40,8,8):
the cross-structure consistency the claim asserts does not hold. -/
theorem c4_store_tree_region_mismatch :
    qMoved4.map (fun q => (mapLookup 0 q.elements, q.root.idRegions)) =
      Except.ok (some (9, Rect.new 5 5 10 10), [(0, Rect.new 40 40 8 8)]) ∧
    Rect.new 5 5 10 10 ≠ Rect.new 40 40 8 8 := by
  constructor
  · rfl
  · decide

/-! ## Claim C6 -/

/-- A state with one element, reached by a successful insert. -/
def qOneElement : Except Fault (Quadtree Nat) :=
  runOps 20 qStart5 [QOp.opInsert 42 (Rect.new 10 10 10 10)]

/-- Claim C6 (confirmed).  `Quadtree::is_empty` returns `true` for every
quadtree — it is the constant function `true` — including a state reached
by a successful insert whose `size()` is greater than zero. -/
theorem c6_is_empty_constant_true :
    (∀ (α : Type) (q : Quadtree α), q.is_empty = true) ∧
    qOneElement.map (fun q => (q.is_empty, decide (0 < Quadtree.size q))) =
      Except.ok (true, true) := by
  constructor
  · intro α q
    rfl
  · rfl

/-! ## Claim C10 -/

/-- The operations for claim C10: capacity 2; three inserts whose regions
are nested deep in the top-left corner (forcing a root subdivision and a
further subdivision of the TL child's TL child), a straddling insert kept
locally at the TL child, a move of that straddler out to the bottom-right
quadrant, and finally its removal — which walks the stale stored region
back into the TL child, drops its size to the capacity threshold, and
invokes `fuse` on a node whose TL child is not a leaf. -/
def fuseBreakOps : List QOp :=
  [QOp.opInsert 1 (Rect.new 2 2 4 4), QOp.opInsert 2 (Rect.new 14 2 4 4),
   QOp.opInsert 3 (Rect.new 2 14 4 4), QOp.opInsert 4 (Rect.new 20 4 8 4),
   QOp.opMove 3 (Rect.new 60 60 8 4), QOp.opRemove 3]


theorem stepU1 : runOp 20 qStart2 (QOp.opInsert 1 (Rect.new 2 2 4 4)) = Except.ok qU1 := by rfl

theorem stepU2 : runOp 20 qU1 (QOp.opInsert 2 (Rect.new 14 2 4 4)) = Except.ok qU2 := by rfl

theorem stepU3 : runOp 20 qU2 (QOp.opInsert 3 (Rect.new 2 14 4 4)) = Except.ok qU3 := by rfl

theorem stepU4 : runOp 20 qU3 (QOp.opInsert 4 (Rect.new 20 4 8 4)) = Except.ok qU4 := by rfl

theorem stepU5 : runOp 20 qU4 (QOp.opMove 3 (Rect.new 60 60 8 4)) = Except.ok qU5 := by rfl

/-- Removing id 3 from `qU5` walks its stale stored region into the TL
child, whose size falls to the capacity threshold while its own TL child
is still subdivided: `fuse` fires and its `debug_assert!(child.is_leaf())`
fails. -/
theorem stepU6err : runOp 20 qU5 (QOp.opRemove 3) = Except.error Fault.fuseChildNotLeaf := by rfl

/-- Claim C10 (refuted — evaluation of the code at the failing input).
Running `fuseBreakOps` — a sequence of public operations whose regions are
all contained in the root's region — aborts with the internal invariant
fault of `Node::fuse` (`debug_assert!(child.is_leaf())`): `fuse` is
invoked on a node one of whose children is not a leaf. -/
theorem c10_fuse_sees_nonleaf_child :
    runOps 20 qStart2 fuseBreakOps = Except.error Fault.fuseChildNotLeaf ∧
    fuseBreakOps.all (opRegionContained (Rect.new 0 0 100 100)) = true := by
  constructor
  · have hops : fuseBreakOps =
        QOp.opInsert 1 (Rect.new 2 2 4 4) :: QOp.opInsert 2 (Rect.new 14 2 4 4) ::
        QOp.opInsert 3 (Rect.new 2 14 4 4) :: QOp.opInsert 4 (Rect.new 20 4 8 4) ::
        QOp.opMove 3 (Rect.new 60 60 8 4) :: QOp.opRemove 3 :: [] := rfl
    rw [hops, runOps_cons_ok stepU1, runOps_cons_ok stepU2, runOps_cons_ok stepU3,
        runOps_cons_ok stepU4, runOps_cons_ok stepU5, runOps_cons_err stepU6err]
  · rfl

/-! ## Claim C9, counterexample -/

/-- The operations of `corruptOps` followed by an insert at (10,10,4,4):
the corrupted fused root is a leaf holding three elements with capacity 2,
so the insert falls through both leaf branches and unwraps the absent
children (`self.children.as_mut().unwrap()` on `None`). -/
def insertFaultOps : List QOp :=
  corruptOps ++ [QOp.opInsert 15 (Rect.new 10 10 4 4)]

/-- Counterexample to claim C9 as stated: a fault-free reachable prefix
(`corruptOps`), then `insert` with a region contained in the root's region
aborts with a fault (the `unwrap` of the missing children), so insert does
not complete normally for every contained region. -/
theorem c9_contained_insert_faults :
    runOps 20 qStart2 insertFaultOps = Except.error Fault.childrenMissing ∧
    (Rect.new 0 0 100 100).contains (Rect.new 10 10 4 4) = true := by
  constructor
  · have hops : insertFaultOps =
        QOp.opInsert 10 (Rect.new 10 10 4 4) :: QOp.opInsert 11 (Rect.new 60 10 4 4) ::
        QOp.opInsert 12 (Rect.new 10 60 4 4) :: QOp.opInsert 13 (Rect.new 60 60 4 4) ::
        QOp.opInsert 14 (Rect.new 80 80 4 4) :: QOp.opMove 3 (Rect.new 10 30 4 4) ::
        QOp.opRemove 3 :: QOp.opRemove 1 :: QOp.opRemove 2 ::
        QOp.opInsert 15 (Rect.new 10 10 4 4) :: [] := rfl
    rw [hops, runOps_cons_ok stepT1, runOps_cons_ok stepT2, runOps_cons_ok stepT3,
        runOps_cons_ok stepT4, runOps_cons_ok stepT5, runOps_cons_ok stepT6,
        runOps_cons_ok stepT7, runOps_cons_ok stepT8, runOps_cons_ok stepT9,
        runOps_cons_err stepT9insErr]
  · rfl

/-! ## Claim C8, counterexample -/

/-- Counterexample to claim C8 as stated: in the reachable state `qGhost`,
id 3 is present in the authoritative store; `remove(3)` returns the stored
pair, but the Node tree still records id 3 afterwards (its stored region
is stale, so the structural removal walks the wrong branch), contradicting
"removes the entry from both the authoritative map and the Node tree". -/
theorem c8_remove_leaves_tree_copy :
    (qGhost.bind (fun q => Quadtree.removeQ q 3)).map
        (fun p => (p.1, (p.2.root.idRegions.map Prod.fst).contains 3,
                   mapLookup 3 p.2.elements)) =
      Except.ok (some (13, Rect.new 60 60 4 4), true, none) := by
  rw [ghost_reached]
  rfl

/-! ## Association-list lemmas -/

theorem mapInsert_fresh {β : Type} (k : Nat) (v : β) :
    ∀ (l : List (Nat × β)), k ∉ l.map Prod.fst → mapInsert k v l = l ++ [(k, v)] := by
  intro l
  induction l with
  | nil => intro _; rfl
  | cons p t ih =>
      obtain ⟨pk, pv⟩ := p
      intro h
      simp only [List.map_cons, List.mem_cons] at h
      push_neg at h
      have hne : ¬(pk = k) := fun e => h.1 e.symm
      simp only [mapInsert, if_neg hne, List.cons_append, ih h.2]

theorem mapErase_absent {β : Type} (k : Nat) :
    ∀ (l : List (Nat × β)), k ∉ l.map Prod.fst → mapErase k l = l := by
  intro l
  induction l with
  | nil => intro _; rfl
  | cons p t ih =>
      obtain ⟨pk, pv⟩ := p
      intro h
      simp only [List.map_cons, List.mem_cons] at h
      push_neg at h
      have hne : ¬(pk = k) := fun e => h.1 e.symm
      simp only [mapErase, if_neg hne, ih h.2]

theorem mapErase_sublist {β : Type} (k : Nat) :
    ∀ (l : List (Nat × β)), (mapErase k l).Sublist l := by
  intro l
  induction l with
  | nil => simp [mapErase]
  | cons p t ih =>
      obtain ⟨pk, pv⟩ := p
      simp only [mapErase]
      by_cases h : pk = k
      · simp only [if_pos h]
        exact List.sublist_cons_self _ t
      · simp only [if_neg h]
        exact ih.cons₂ _

theorem mapErase_perm {β : Type} (k : Nat) (v : β) :
    ∀ (l : List (Nat × β)), (l.map Prod.fst).Nodup → (k, v) ∈ l →
      List.Perm ((k, v) :: mapErase k l) l := by
  intro l
  induction l with
  | nil => intro _ h; cases h
  | cons p t ih =>
      obtain ⟨pk, pv⟩ := p
      intro hnd hm
      simp only [List.map_cons, List.nodup_cons] at hnd
      rcases List.mem_cons.mp hm with h | h
      · simp only [Prod.mk.injEq] at h
        obtain ⟨h1, h2⟩ := h
        subst h1
        subst h2
        simp [mapErase]
      · have hk : ¬(pk = k) := by
          intro e
          subst e
          exact hnd.1 (List.mem_map.mpr ⟨(pk, v), h, rfl⟩)
        simp only [mapErase, if_neg hk]
        exact (List.Perm.swap _ _ _).trans ((ih hnd.2 h).cons (pk, pv))

theorem mapLookup_none_iff {β : Type} (k : Nat) :
    ∀ (l : List (Nat × β)), mapLookup k l = none ↔ k ∉ l.map Prod.fst := by
  intro l
  induction l with
  | nil => simp [mapLookup]
  | cons p t ih =>
      obtain ⟨pk, pv⟩ := p
      simp only [mapLookup, List.map_cons, List.mem_cons]
      by_cases h : pk = k
      · simp [if_pos h, h]
      · simp only [if_neg h, ih]
        constructor
        · intro ht hor
          exact ht (hor.resolve_left (fun e => h e.symm))
        · intro hall
          exact fun hm => hall (Or.inr hm)

theorem mapLookup_mem {β : Type} (k : Nat) (v : β) :
    ∀ (l : List (Nat × β)), mapLookup k l = some v → (k, v) ∈ l := by
  intro l
  induction l with
  | nil => intro h; cases h
  | cons p t ih =>
      obtain ⟨pk, pv⟩ := p
      simp only [mapLookup]
      by_cases h : pk = k
      · simp only [if_pos h]
        intro he
        subst h
        cases he
        exact List.mem_cons_self _ _
      · simp only [if_neg h]
        intro he
        exact List.mem_cons_of_mem _ (ih he)

theorem mapLookup_append_fresh {β : Type} (k : Nat) (v : β) :
    ∀ (l : List (Nat × β)), k ∉ l.map Prod.fst → mapLookup k (l ++ [(k, v)]) = some v := by
  intro l
  induction l with
  | nil => intro _; simp [mapLookup]
  | cons p t ih =>
      obtain ⟨pk, pv⟩ := p
      intro h
      simp only [List.map_cons, List.mem_cons] at h
      push_neg at h
      have hne : ¬(pk = k) := fun e => h.1 e.symm
      simp only [List.cons_append, mapLookup, if_neg hne]
      exact ih h.2

theorem mapExtend_disjoint {β : Type} :
    ∀ (new base : List (Nat × β)), ((base ++ new).map Prod.fst).Nodup →
      mapExtend base new = base ++ new := by
  intro new
  induction new with
  | nil => intro base _; simp [mapExtend]
  | cons p t ih =>
      intro base hnd
      have hfresh : p.1 ∉ base.map Prod.fst := by
        intro hm
        have hsplit : ((base ++ p :: t).map Prod.fst) =
            base.map Prod.fst ++ p.1 :: t.map Prod.fst := by simp
        rw [hsplit] at hnd
        exact (List.nodup_append.mp hnd).2.2 hm (List.mem_cons_self _ _)
      have hstep : mapExtend base (p :: t) = mapExtend (base ++ [p]) t := by
        simp only [mapExtend, List.foldl_cons]
        rw [mapInsert_fresh p.1 p.2 base hfresh]
      rw [hstep]
      have hnd' : ((base ++ [p] ++ t).map Prod.fst).Nodup := by
        simpa using hnd
      rw [ih (base ++ [p]) hnd']
      simp

theorem mapErase_len {β : Type} (k : Nat) (v : β) (l : List (Nat × β))
    (hnd : (l.map Prod.fst).Nodup) (hm : (k, v) ∈ l) :
    (mapErase k l).length + 1 = l.length := by
  have h := (mapErase_perm k v l hnd hm).length_eq
  simpa using h

/-! ## Well-formedness of a Node tree

`wfB cap n` is the conjunction of the structural invariants the spec
states (I1–I5 strengthened to what the algorithms actually maintain):
* a leaf's `size` is its local element count, at most `cap`;
* an internal node's `size` is local count plus children sizes (I3) and
  exceeds `cap` (it subdivided at `cap + 1` and fuses back at `cap`);
* ids are recorded at most once in a subtree;
* every region recorded anywhere in the subtree is contained in the
  node's region (I1, hereditarily);
* a local element of an internal node straddles: no child contains it;
* an element recorded under a child is contained in that child's region
  and in no earlier child's region (the insertion loop places a region
  in the first child containing it — I4 in executable form). -/
def Node.wfB (cap : Nat) : Node → Bool
  | Node.leaf reg elems _ sz =>
      decide (sz = elems.length) && decide (elems.length ≤ cap) &&
      decide ((elems.map Prod.fst).Nodup) &&
      elems.all (fun p => reg.contains p.2)
  | Node.node reg elems c1 c2 c3 c4 _ sz =>
      decide (sz = elems.length + (c1.size + (c2.size + (c3.size + c4.size)))) &&
      decide (cap + 1 ≤ sz) &&
      decide (((elems ++ (c1.idRegions ++ (c2.idRegions ++ (c3.idRegions ++ c4.idRegions)))).map
        Prod.fst).Nodup) &&
      (elems ++ (c1.idRegions ++ (c2.idRegions ++ (c3.idRegions ++ c4.idRegions)))).all
        (fun p => reg.contains p.2) &&
      elems.all (fun p => !(c1.region.contains p.2) && !(c2.region.contains p.2) &&
                          !(c3.region.contains p.2) && !(c4.region.contains p.2)) &&
      c2.idRegions.all (fun p => !(c1.region.contains p.2)) &&
      c3.idRegions.all (fun p => !(c1.region.contains p.2) && !(c2.region.contains p.2)) &&
      c4.idRegions.all (fun p => !(c1.region.contains p.2) && !(c2.region.contains p.2) &&
                                 !(c3.region.contains p.2)) &&
      Node.wfB cap c1 && Node.wfB cap c2 && Node.wfB cap c3 && Node.wfB cap c4

/-- The ids recorded in a subtree. -/
def Node.treeIds (n : Node) : List Nat := n.idRegions.map Prod.fst

/-- The accumulator shape maintained by `subdivide`'s re-insertion loop:
the four quadrant children are leaves holding `e1 … e4`, the straddlers
`e0` sit locally, each `size` field counts the elements below it. -/
def FoldShape (reg : Rect) (d : Nat) (e0 e1 e2 e3 e4 : List (Nat × Rect)) : Node :=
  Node.node reg e0
    (Node.leaf (Node.quadTL reg) e1 (d + 1) e1.length)
    (Node.leaf (Node.quadTR reg) e2 (d + 1) e2.length)
    (Node.leaf (Node.quadBL reg) e3 (d + 1) e3.length)
    (Node.leaf (Node.quadBR reg) e4 (d + 1) e4.length)
    0 (e0.length + (e1.length + (e2.length + (e3.length + e4.length))))

/-- The invariant of `subdivide`'s re-insertion loop: the accumulator is
a `FoldShape` holding exactly the processed elements, each placed where
the first-containing-child rule puts it. -/
def FoldInv (reg : Rect) (d : Nat) (processed : List (Nat × Rect)) (acc : Node) : Prop :=
  ∃ e0 e1 e2 e3 e4,
    acc = FoldShape reg d e0 e1 e2 e3 e4 ∧
    List.Perm (e0 ++ (e1 ++ (e2 ++ (e3 ++ e4)))) processed ∧
    (∀ p ∈ e0, (Node.quadTL reg).contains p.2 = false ∧
               (Node.quadTR reg).contains p.2 = false ∧
               (Node.quadBL reg).contains p.2 = false ∧
               (Node.quadBR reg).contains p.2 = false) ∧
    (∀ p ∈ e1, (Node.quadTL reg).contains p.2 = true) ∧
    (∀ p ∈ e2, (Node.quadTR reg).contains p.2 = true ∧
               (Node.quadTL reg).contains p.2 = false) ∧
    (∀ p ∈ e3, (Node.quadBL reg).contains p.2 = true ∧
               (Node.quadTL reg).contains p.2 = false ∧
               (Node.quadTR reg).contains p.2 = false) ∧
    (∀ p ∈ e4, (Node.quadBR reg).contains p.2 = true ∧
               (Node.quadTL reg).contains p.2 = false ∧
               (Node.quadTR reg).contains p.2 = false ∧
               (Node.quadBL reg).contains p.2 = false)

/-! ## Small reduction lemmas -/

@[simp] theorem region_leaf (r e d s) : (Node.leaf r e d s).region = r := rfl

@[simp] theorem region_node (r e c1 c2 c3 c4 d s) :
    (Node.node r e c1 c2 c3 c4 d s).region = r := rfl

@[simp] theorem elements_leaf (r e d s) : (Node.leaf r e d s).elements = e := rfl

@[simp] theorem elements_node (r e c1 c2 c3 c4 d s) :
    (Node.node r e c1 c2 c3 c4 d s).elements = e := rfl

@[simp] theorem depth_leaf (r e d s) : (Node.leaf r e d s).depth = d := rfl

@[simp] theorem depth_node (r e c1 c2 c3 c4 d s) :
    (Node.node r e c1 c2 c3 c4 d s).depth = d := rfl

@[simp] theorem size_leaf (r e d s) : (Node.leaf r e d s).size = s := rfl

@[simp] theorem size_node (r e c1 c2 c3 c4 d s) :
    (Node.node r e c1 c2 c3 c4 d s).size = s := rfl

@[simp] theorem children_leaf (r e d s) : (Node.leaf r e d s).children = none := rfl

@[simp] theorem children_node (r e c1 c2 c3 c4 d s) :
    (Node.node r e c1 c2 c3 c4 d s).children = some (c1, c2, c3, c4) := rfl

@[simp] theorem is_leaf_leaf (r e d s) : (Node.leaf r e d s).is_leaf = true := rfl

@[simp] theorem is_leaf_node (r e c1 c2 c3 c4 d s) :
    (Node.node r e c1 c2 c3 c4 d s).is_leaf = false := rfl

@[simp] theorem idRegions_leaf (r e d s) : (Node.leaf r e d s).idRegions = e := rfl

@[simp] theorem idRegions_node (r e c1 c2 c3 c4 d s) :
    (Node.node r e c1 c2 c3 c4 d s).idRegions =
      e ++ (c1.idRegions ++ (c2.idRegions ++ (c3.idRegions ++ c4.idRegions))) := rfl

@[simp] theorem except_bind_ok {γ δ : Type} (a : γ) (f : γ → Except Fault δ) :
    (Except.ok a >>= f) = f a := rfl

@[simp] theorem except_bind_err {γ δ : Type} (e : Fault) (f : γ → Except Fault δ) :
    ((Except.error e : Except Fault γ) >>= f) = Except.error e := rfl

@[simp] theorem except_throw {γ : Type} (e : Fault) :
    (throw e : Except Fault γ) = Except.error e := rfl

@[simp] theorem except_pure {γ : Type} (a : γ) :
    (pure a : Except Fault γ) = Except.ok a := rfl

/-! ## Unfolding lemmas for `Node.insert` -/

/-- `insert` into a leaf under capacity: the fast path records locally. -/
theorem insert_leaf_under (fuel : Nat) (reg : Rect) (elems : List (Nat × Rect))
    (d sz : Nat) (id : Nat) (rg : Rect) (cap : Nat)
    (hc : reg.contains rg = true) (hlt : elems.length < cap) :
    Node.insert fuel (Node.leaf reg elems d sz) id rg cap =
      Except.ok (Node.leaf reg (mapInsert id rg elems) d (sz + 1)) := by
  rw [Node.insert.eq_def]
  simp [hc, hlt]

/-- `insert` into an internal node: assert, then descend into the first
child containing the region, or record locally. -/
theorem insert_node_eq (fuel : Nat) (reg : Rect) (elems : List (Nat × Rect))
    (c1 c2 c3 c4 : Node) (d sz : Nat) (id : Nat) (rg : Rect) (cap : Nat) :
    Node.insert fuel (Node.node reg elems c1 c2 c3 c4 d sz) id rg cap =
      if reg.contains rg = false then Except.error Fault.assertContainmentFailed else
      match fuel with
      | 0 => Except.error Fault.outOfFuel
      | fuel' + 1 =>
        if c1.region.contains rg then
          (Node.insert fuel' c1 id rg cap).map
            (fun c1' => Node.node reg elems c1' c2 c3 c4 d (sz + 1))
        else if c2.region.contains rg then
          (Node.insert fuel' c2 id rg cap).map
            (fun c2' => Node.node reg elems c1 c2' c3 c4 d (sz + 1))
        else if c3.region.contains rg then
          (Node.insert fuel' c3 id rg cap).map
            (fun c3' => Node.node reg elems c1 c2 c3' c4 d (sz + 1))
        else if c4.region.contains rg then
          (Node.insert fuel' c4 id rg cap).map
            (fun c4' => Node.node reg elems c1 c2 c3 c4' d (sz + 1))
        else
          Except.ok (Node.node reg (mapInsert id rg elems) c1 c2 c3 c4 d (sz + 1)) := by
  by_cases hc : reg.contains rg
  · cases fuel with
    | zero =>
        rw [Node.insert.eq_def]
        simp [hc]
    | succ fuel' =>
        rw [Node.insert.eq_def]
        simp only [region_node, is_leaf_node, elements_node, children_node, depth_node,
          size_node, hc, Bool.not_true, Bool.false_and, Bool.false_eq_true, if_false,
          except_pure, except_bind_ok]
        by_cases h1 : c1.region.contains rg
        · simp only [h1, if_true]
          cases Node.insert fuel' c1 id rg cap <;> rfl
        · simp only [h1, Bool.false_eq_true, if_false]
          by_cases h2 : c2.region.contains rg
          · simp only [h2, if_true]
            cases Node.insert fuel' c2 id rg cap <;> rfl
          · simp only [h2, Bool.false_eq_true, if_false]
            by_cases h3 : c3.region.contains rg
            · simp only [h3, if_true]
              cases Node.insert fuel' c3 id rg cap <;> rfl
            · simp only [h3, Bool.false_eq_true, if_false]
              by_cases h4 : c4.region.contains rg
              · simp only [h4, if_true]
                cases Node.insert fuel' c4 id rg cap <;> rfl
              · simp only [h4, Bool.false_eq_true, if_false]
                rfl
  · rw [Node.insert.eq_def]
    simp only [Bool.not_eq_true] at hc
    simp only [region_node, hc, Bool.not_false, if_true, Bool.true_eq_false, if_false]
    cases fuel <;> simp

/-! ## The re-insertion loop of `subdivide` -/

theorem perm_snoc {γ : Type} (x : γ) (l1 l2 : List γ) (h : List.Perm l1 l2) :
    List.Perm (x :: l1) (l2 ++ [x]) :=
  (h.cons x).trans (List.perm_append_singleton x l2).symm

theorem fold_step (fuel cap : Nat) (reg : Rect) (d : Nat)
    (processed : List (Nat × Rect)) (acc acc' : Node) (id : Nat) (rg : Rect)
    (hinv : FoldInv reg d processed acc)
    (hlen : processed.length < cap)
    (hfresh : id ∉ processed.map Prod.fst)
    (hok : Node.insert fuel acc id rg cap = Except.ok acc') :
    FoldInv reg d (processed ++ [(id, rg)]) acc' ∧ reg.contains rg = true := by
  obtain ⟨e0, e1, e2, e3, e4, hacc, hperm, h0, h1, h2, h3, h4⟩ := hinv
  subst hacc
  rw [FoldShape, insert_node_eq] at hok
  by_cases hc : reg.contains rg
  case neg =>
    rw [if_pos (by simp [hc])] at hok
    cases hok
  rw [if_neg (by simp [hc])] at hok
  cases fuel with
  | zero => cases hok
  | succ fuel' =>
    have hsum : e0.length + (e1.length + (e2.length + (e3.length + e4.length))) =
        processed.length := by
      have := hperm.length_eq
      simpa using this
    have hmemid : ∀ p ∈ e0 ++ (e1 ++ (e2 ++ (e3 ++ e4))), p.1 ≠ id := by
      intro p hp he
      exact hfresh (he ▸ List.mem_map.mpr ⟨p, hperm.mem_iff.mp hp, rfl⟩)
    refine And.intro ?_ hc
    simp only [region_leaf] at hok
    by_cases hq1 : (Node.quadTL reg).contains rg
    · rw [if_pos hq1,
        insert_leaf_under fuel' _ _ _ _ _ _ _ hq1 (by omega),
        mapInsert_fresh id rg e1 (by
          intro hm
          rcases List.mem_map.mp hm with ⟨p, hp, he⟩
          exact hmemid p (by simp [hp]) he)] at hok
      simp only [Except.map, Except.ok.injEq] at hok
      refine ⟨e0, e1 ++ [(id, rg)], e2, e3, e4, ?_, ?_, h0, ?_, h2, h3, h4⟩
      · rw [← hok]
        simp only [FoldShape, List.length_append, List.length_singleton]
        congr 1 <;> omega
      · have step1 : List.Perm (e0 ++ ((e1 ++ [(id, rg)]) ++ (e2 ++ (e3 ++ e4))))
            ((id, rg) :: (e0 ++ (e1 ++ (e2 ++ (e3 ++ e4))))) := by
          rw [List.append_assoc e1 [(id, rg)], List.singleton_append,
            ← List.append_assoc e0 e1]
          exact List.perm_middle.trans
            (by rw [List.append_assoc e0 e1])
        exact step1.trans (perm_snoc _ _ _ hperm)
      · intro p hp
        rcases List.mem_append.mp hp with hp | hp
        · exact h1 p hp
        · simp only [List.mem_singleton] at hp
          subst hp
          exact hq1
    · rw [if_neg hq1] at hok
      by_cases hq2 : (Node.quadTR reg).contains rg
      · rw [if_pos hq2,
          insert_leaf_under fuel' _ _ _ _ _ _ _ hq2 (by omega),
          mapInsert_fresh id rg e2 (by
            intro hm
            rcases List.mem_map.mp hm with ⟨p, hp, he⟩
            exact hmemid p (by simp [hp]) he)] at hok
        simp only [Except.map, Except.ok.injEq] at hok
        refine ⟨e0, e1, e2 ++ [(id, rg)], e3, e4, ?_, ?_, h0, h1, ?_, h3, h4⟩
        · rw [← hok]
          simp only [FoldShape, List.length_append, List.length_singleton]
          congr 1 <;> omega
        · have step1 : List.Perm (e0 ++ (e1 ++ ((e2 ++ [(id, rg)]) ++ (e3 ++ e4))))
              ((id, rg) :: (e0 ++ (e1 ++ (e2 ++ (e3 ++ e4))))) := by
            rw [List.append_assoc e2 [(id, rg)], List.singleton_append,
              ← List.append_assoc e1 e2, ← List.append_assoc e0 (e1 ++ e2)]
            refine List.perm_middle.trans ?_
            rw [List.append_assoc e0 (e1 ++ e2), List.append_assoc e1 e2]
          exact step1.trans (perm_snoc _ _ _ hperm)
        · intro p hp
          rcases List.mem_append.mp hp with hp | hp
          · exact h2 p hp
          · simp only [List.mem_singleton] at hp
            subst hp
            exact ⟨hq2, by simpa using hq1⟩
      · rw [if_neg hq2] at hok
        by_cases hq3 : (Node.quadBL reg).contains rg
        · rw [if_pos hq3,
            insert_leaf_under fuel' _ _ _ _ _ _ _ hq3 (by omega),
            mapInsert_fresh id rg e3 (by
              intro hm
              rcases List.mem_map.mp hm with ⟨p, hp, he⟩
              exact hmemid p (by simp [hp]) he)] at hok
          simp only [Except.map, Except.ok.injEq] at hok
          refine ⟨e0, e1, e2, e3 ++ [(id, rg)], e4, ?_, ?_, h0, h1, h2, ?_, h4⟩
          · rw [← hok]
            simp only [FoldShape, List.length_append, List.length_singleton]
            congr 1 <;> omega
          · have step1 : List.Perm (e0 ++ (e1 ++ (e2 ++ ((e3 ++ [(id, rg)]) ++ e4))))
                ((id, rg) :: (e0 ++ (e1 ++ (e2 ++ (e3 ++ e4))))) := by
              rw [List.append_assoc e3 [(id, rg)], List.singleton_append,
                ← List.append_assoc e2 e3, ← List.append_assoc e1 (e2 ++ e3),
                ← List.append_assoc e0 (e1 ++ (e2 ++ e3))]
              refine List.perm_middle.trans ?_
              rw [List.append_assoc e0 (e1 ++ (e2 ++ e3)),
                List.append_assoc e1 (e2 ++ e3), List.append_assoc e2 e3]
            exact step1.trans (perm_snoc _ _ _ hperm)
          · intro p hp
            rcases List.mem_append.mp hp with hp | hp
            · exact h3 p hp
            · simp only [List.mem_singleton] at hp
              subst hp
              exact ⟨hq3, by simpa using hq1, by simpa using hq2⟩
        · rw [if_neg hq3] at hok
          by_cases hq4 : (Node.quadBR reg).contains rg
          · rw [if_pos hq4,
              insert_leaf_under fuel' _ _ _ _ _ _ _ hq4 (by omega),
              mapInsert_fresh id rg e4 (by
                intro hm
                rcases List.mem_map.mp hm with ⟨p, hp, he⟩
                exact hmemid p (by simp [hp]) he)] at hok
            simp only [Except.map, Except.ok.injEq] at hok
            refine ⟨e0, e1, e2, e3, e4 ++ [(id, rg)], ?_, ?_, h0, h1, h2, h3, ?_⟩
            · rw [← hok]
              simp only [FoldShape, List.length_append, List.length_singleton]
              congr 1 <;> omega
            · have step1 : List.Perm (e0 ++ (e1 ++ (e2 ++ (e3 ++ (e4 ++ [(id, rg)])))))
                  ((id, rg) :: (e0 ++ (e1 ++ (e2 ++ (e3 ++ e4))))) := by
                rw [← List.append_assoc e3 e4 [(id, rg)],
                  ← List.append_assoc e2 (e3 ++ e4) [(id, rg)],
                  ← List.append_assoc e1 (e2 ++ (e3 ++ e4)) [(id, rg)],
                  ← List.append_assoc e0 (e1 ++ (e2 ++ (e3 ++ e4))) [(id, rg)]]
                exact List.perm_append_singleton _ _
              exact step1.trans (perm_snoc _ _ _ hperm)
            · intro p hp
              rcases List.mem_append.mp hp with hp | hp
              · exact h4 p hp
              · simp only [List.mem_singleton] at hp
                subst hp
                exact ⟨hq4, by simpa using hq1, by simpa using hq2, by simpa using hq3⟩
          · rw [if_neg hq4] at hok
            simp only [Except.ok.injEq] at hok
            rw [mapInsert_fresh id rg e0 (by
              intro hm
              rcases List.mem_map.mp hm with ⟨p, hp, he⟩
              exact hmemid p (by simp [hp]) he)] at hok
            refine ⟨e0 ++ [(id, rg)], e1, e2, e3, e4, ?_, ?_, ?_, h1, h2, h3, h4⟩
            · rw [← hok]
              simp only [FoldShape, List.length_append, List.length_singleton]
              congr 1 <;> omega
            · have step1 : List.Perm ((e0 ++ [(id, rg)]) ++ (e1 ++ (e2 ++ (e3 ++ e4))))
                  ((id, rg) :: (e0 ++ (e1 ++ (e2 ++ (e3 ++ e4))))) := by
                rw [List.append_assoc e0 [(id, rg)], List.singleton_append]
                exact List.perm_middle
              exact step1.trans (perm_snoc _ _ _ hperm)
            · intro p hp
              rcases List.mem_append.mp hp with hp | hp
              · exact h0 p hp
              · simp only [List.mem_singleton] at hp
                subst hp
                exact ⟨by simpa using hq1, by simpa using hq2, by simpa using hq3,
                  by simpa using hq4⟩

theorem fold_go (fuel cap : Nat) (reg : Rect) (d : Nat) :
    ∀ (todo processed : List (Nat × Rect)) (acc m : Node),
      FoldInv reg d processed acc →
      ((processed ++ todo).map Prod.fst).Nodup →
      processed.length + todo.length ≤ cap →
      todo.foldlM (fun acc p => Node.insert fuel acc p.1 p.2 cap) acc = Except.ok m →
      FoldInv reg d (processed ++ todo) m ∧ ∀ p ∈ todo, reg.contains p.2 = true := by
  intro todo
  induction todo with
  | nil =>
      intro processed acc m hinv _ _ hok
      simp only [List.foldlM_nil] at hok
      cases hok
      simpa using hinv
  | cons p t ih =>
      intro processed acc m hinv hnd hcap hok
      simp only [List.foldlM_cons] at hok
      cases hstep : Node.insert fuel acc p.1 p.2 cap with
      | error e => rw [hstep] at hok; cases hok
      | ok acc1 =>
          rw [hstep] at hok
          simp only [except_bind_ok] at hok
          have hfresh : p.1 ∉ processed.map Prod.fst := by
            intro hm
            have hsplit : ((processed ++ p :: t).map Prod.fst) =
                processed.map Prod.fst ++ p.1 :: t.map Prod.fst := by simp
            rw [hsplit] at hnd
            exact (List.nodup_append.mp hnd).2.2 hm (List.mem_cons_self _ _)
          have hlt : processed.length < cap := by
            have := hcap
            simp only [List.length_cons] at this
            omega
          obtain ⟨hinv1, hc⟩ := fold_step fuel cap reg d processed acc acc1 p.1 p.2
            hinv hlt hfresh (by simpa using hstep)
          have hnd' : (((processed ++ [p]) ++ t).map Prod.fst).Nodup := by
            simpa using hnd
          have hcap' : (processed ++ [p]).length + t.length ≤ cap := by
            simp only [List.length_append, List.length_singleton]
            simp only [List.length_cons] at hcap
            omega
          have hres := ih (processed ++ [p]) acc1 m (by simpa using hinv1) hnd' hcap' hok
          constructor
          · have : (processed ++ [p]) ++ t = processed ++ p :: t := by simp
            rw [← this]
            exact hres.1
          · intro q hq
            rcases List.mem_cons.mp hq with hq | hq
            · subst hq; exact hc
            · exact hres.2 q hq

/-- The full specification of `Node::subdivide` on a leaf holding exactly
`cap` elements (with distinct ids): the result keeps the region, depth and
(element-count) size, has the four quadrant leaves as children at
`depth + 1`, and holds exactly the original elements, each placed by the
first-containing-child rule. -/
theorem subdivide_spec (fuel cap : Nat) (reg : Rect) (elems : List (Nat × Rect))
    (d sz : Nat) (m : Node)
    (hnd : (elems.map Prod.fst).Nodup)
    (hlen : elems.length = cap)
    (hok : Node.subdivide fuel (Node.leaf reg elems d sz) cap = Except.ok m) :
    FoldInv reg d elems m ∧ ∀ p ∈ elems, reg.contains p.2 = true := by
  have hstart : FoldInv reg d [] (Node.subdivideStart (Node.leaf reg elems d sz)) := by
    refine ⟨[], [], [], [], [], rfl, by simp, ?_, ?_, ?_, ?_, ?_⟩ <;> simp
  have h := fold_go fuel cap reg d elems [] _ m hstart (by simpa using hnd)
    (by simpa using Nat.le_of_eq hlen) (by simpa [Node.subdivide] using hok)
  simpa using h

/-! ## Claim C5 -/

/-- Counterexample to claim C5 as stated, in two parts.  Size: the root
of the reachable state `qT10` is a leaf holding exactly
`max_node_capacity = 2` local elements, so the next insert invokes
`subdivide` on it — but its `size` field is 1 (corrupted by the
stale-region remove earlier in the history), and `subdivide` rebuilds
`size` from the re-insertion count: the result has `size` 2.  Depth:
`subdivide` overwrites the node with `Node::new(self.region)`, whose
`depth` is 0, and never restores the old depth, so subdividing a
depth-1 leaf (exactly the TL child's state in the `fuseBreakOps` run,
with consistent `size`) yields a node of depth 0, not 1. -/
theorem c5_subdivide_changes_size_and_depth :
    (qT10.root.is_leaf = true ∧ qT10.root.elements.length = 2 ∧ qT10.root.size = 1 ∧
     (Node.subdivide 20 qT10.root 2).map Node.size = Except.ok 2 ∧
     (2 : Nat) ≠ 1) ∧
    ((Node.subdivide 20 (Node.leaf (Rect.new 0 0 50 50)
        [(0, Rect.new 2 2 4 4), (1, Rect.new 14 2 4 4)] 1 2) 2).map Node.depth =
      Except.ok 0 ∧
     (0 : Nat) ≠ 1) := by
  refine ⟨⟨rfl, rfl, rfl, rfl, by decide⟩, rfl, by decide⟩

/-- Claim C5 as amended: on a leaf holding exactly `max_node_capacity`
local elements *whose `size` field equals that element count* (invariant
I3, which holds in every uncorrupted tree), `subdivide` preserves
`region` and `size`, but resets the node's own `depth` field to 0 (it
rebuilds the node as `Node::new(self.region)` and never restores the
depth); it produces exactly four children that are leaves over the four
half-width, half-height quadrant regions (TL, TR, BL, BR) at the
original depth + 1, and redistributes exactly the locally stored
elements via the `insert` logic. -/
theorem c5_subdivide_frame (fuel cap : Nat) (reg : Rect) (elems : List (Nat × Rect))
    (d sz : Nat) (m : Node)
    (hnd : (elems.map Prod.fst).Nodup)
    (hlen : elems.length = cap)
    (hsz : sz = elems.length)
    (hok : Node.subdivide fuel (Node.leaf reg elems d sz) cap = Except.ok m) :
    m.region = reg ∧ m.depth = 0 ∧ m.size = sz ∧
    (∃ e0 e1 e2 e3 e4,
      m = Node.node reg e0
        (Node.leaf (Node.quadTL reg) e1 (d + 1) e1.length)
        (Node.leaf (Node.quadTR reg) e2 (d + 1) e2.length)
        (Node.leaf (Node.quadBL reg) e3 (d + 1) e3.length)
        (Node.leaf (Node.quadBR reg) e4 (d + 1) e4.length) 0 sz) ∧
    List.Perm m.idRegions elems := by
  obtain ⟨⟨e0, e1, e2, e3, e4, hm, hperm, _, _, _, _, _⟩, _⟩ :=
    subdivide_spec fuel cap reg elems d sz m hnd hlen hok
  have hsz' : e0.length + (e1.length + (e2.length + (e3.length + e4.length))) = sz := by
    have := hperm.length_eq
    simp only [List.length_append] at this
    omega
  subst hm
  refine ⟨rfl, rfl, ?_, ⟨e0, e1, e2, e3, e4, ?_⟩, ?_⟩
  · simp [FoldShape, hsz']
  · simp [FoldShape, hsz']
  · simpa [FoldShape] using hperm

/-- The leaf the C5 witness subdivides: capacity 2, depth 1, two
elements with distinct ids, consistent `size`. -/
def c5wLeaf : Node :=
  Node.leaf (Rect.new 0 0 100 100)
    [(0, Rect.new 10 10 4 4), (1, Rect.new 60 60 4 4)] 1 2

/-- The result of subdividing `c5wLeaf`: depth reset to 0, children at
the original depth + 1. -/
def c5wRes : Node :=
  Node.node ⟨⟨0, 1⟩, ⟨0, 1⟩, ⟨100, 1⟩, ⟨100, 1⟩⟩ []
    (Node.leaf ⟨⟨0, 1⟩, ⟨0, 1⟩, ⟨100, 2⟩, ⟨100, 2⟩⟩ [(0, ⟨⟨10, 1⟩, ⟨10, 1⟩, ⟨4, 1⟩, ⟨4, 1⟩⟩)] 2 1)
    (Node.leaf ⟨⟨100, 2⟩, ⟨0, 1⟩, ⟨100, 2⟩, ⟨100, 2⟩⟩ [] 2 0)
    (Node.leaf ⟨⟨0, 1⟩, ⟨100, 2⟩, ⟨100, 2⟩, ⟨100, 2⟩⟩ [] 2 0)
    (Node.leaf ⟨⟨100, 2⟩, ⟨100, 2⟩, ⟨100, 2⟩, ⟨100, 2⟩⟩ [(1, ⟨⟨60, 1⟩, ⟨60, 1⟩, ⟨4, 1⟩, ⟨4, 1⟩⟩)] 2 1) 0 2

/-- Witness for `c5_subdivide_frame`: all hypotheses hold at `c5wLeaf`
and the conclusions evaluate (the node's depth dropped from 1 to 0, its
children sit at depth 2). -/
theorem c5_subdivide_frame_witness :
    c5wRes.region = Rect.new 0 0 100 100 ∧ c5wRes.depth = 0 ∧ c5wRes.size = 2 ∧
    (∃ e0 e1 e2 e3 e4,
      c5wRes = Node.node (Rect.new 0 0 100 100) e0
        (Node.leaf (Node.quadTL (Rect.new 0 0 100 100)) e1 (1 + 1) e1.length)
        (Node.leaf (Node.quadTR (Rect.new 0 0 100 100)) e2 (1 + 1) e2.length)
        (Node.leaf (Node.quadBL (Rect.new 0 0 100 100)) e3 (1 + 1) e3.length)
        (Node.leaf (Node.quadBR (Rect.new 0 0 100 100)) e4 (1 + 1) e4.length) 0 2) ∧
    List.Perm c5wRes.idRegions [(0, Rect.new 10 10 4 4), (1, Rect.new 60 60 4 4)] :=
  c5_subdivide_frame 1 2 (Rect.new 0 0 100 100)
    [(0, Rect.new 10 10 4 4), (1, Rect.new 60 60 4 4)] 1 2 c5wRes
    (by decide) rfl rfl rfl

/-! ## Claim C9: the containment assertion -/

/-- Hereditary local containment (invariant I1 alone): every element
stored at a node is contained in that node's region.  This holds even in
states corrupted by stale moves, because every placement in the code is
guarded by a containment test. -/
def Node.containsWF : Node → Bool
  | Node.leaf reg elems _ _ => elems.all (fun p => reg.contains p.2)
  | Node.node reg elems c1 c2 c3 c4 _ _ =>
      elems.all (fun p => reg.contains p.2) && Node.containsWF c1 &&
      Node.containsWF c2 && Node.containsWF c3 && Node.containsWF c4

theorem mapInsert_mem {β : Type} (k : Nat) (v : β) :
    ∀ (l : List (Nat × β)) (p : Nat × β), p ∈ mapInsert k v l → p ∈ l ∨ p = (k, v) := by
  intro l
  induction l with
  | nil =>
      intro p hp
      simp only [mapInsert, List.mem_singleton] at hp
      exact Or.inr hp
  | cons q t ih =>
      obtain ⟨qk, qv⟩ := q
      intro p hp
      simp only [mapInsert] at hp
      by_cases h : qk = k
      · rw [if_pos h] at hp
        rcases List.mem_cons.mp hp with hp | hp
        · exact Or.inr hp
        · exact Or.inl (List.mem_cons_of_mem _ hp)
      · rw [if_neg h] at hp
        rcases List.mem_cons.mp hp with hp | hp
        · exact Or.inl (hp ▸ List.mem_cons_self _ _)
        · rcases ih p hp with hp | hp
          · exact Or.inl (List.mem_cons_of_mem _ hp)
          · exact Or.inr hp

/-- `insert` into a leaf at exactly `max_node_capacity`: subdivide, then
continue on the subdivided node. -/
theorem insert_leaf_at_cap_eq (fuel' : Nat) (reg : Rect) (elems : List (Nat × Rect))
    (d sz : Nat) (id : Nat) (rg : Rect) (cap : Nat)
    (hc : reg.contains rg = true) (hl : elems.length = cap) :
    Node.insert (fuel' + 1) (Node.leaf reg elems d sz) id rg cap =
      (Node.subdivide fuel' (Node.leaf reg elems d sz) cap).bind
        (fun n1 =>
          match n1 with
          | Node.leaf _ _ _ _ => Except.error Fault.childrenMissing
          | Node.node reg2 elems2 c1 c2 c3 c4 d2 sz2 =>
            if c1.region.contains rg then
              (Node.insert fuel' c1 id rg cap).map
                (fun c1' => Node.node reg2 elems2 c1' c2 c3 c4 d2 (sz2 + 1))
            else if c2.region.contains rg then
              (Node.insert fuel' c2 id rg cap).map
                (fun c2' => Node.node reg2 elems2 c1 c2' c3 c4 d2 (sz2 + 1))
            else if c3.region.contains rg then
              (Node.insert fuel' c3 id rg cap).map
                (fun c3' => Node.node reg2 elems2 c1 c2 c3' c4 d2 (sz2 + 1))
            else if c4.region.contains rg then
              (Node.insert fuel' c4 id rg cap).map
                (fun c4' => Node.node reg2 elems2 c1 c2 c3 c4' d2 (sz2 + 1))
            else
              Except.ok (Node.node reg2 (mapInsert id rg elems2) c1 c2 c3 c4 d2 (sz2 + 1))) := by
  have hnlt : ¬ elems.length < cap := by omega
  rw [Node.insert.eq_def]
  simp only [region_leaf, is_leaf_leaf, elements_leaf, depth_leaf, size_leaf, hc,
    Bool.not_true, Bool.false_eq_true, if_false, Bool.true_and, hnlt, decide_False,
    decide_True, hl, decide_eq_true_eq, if_true, if_pos, Node.subdivide]
  rw [if_neg (Nat.lt_irrefl cap)]
  cases hfold : List.foldlM (fun acc p => Node.insert fuel' acc p.1 p.2 cap)
      (Node.subdivideStart (Node.leaf reg elems d sz)) elems with
  | error e => rfl
  | ok n1 =>
      simp only [except_bind_ok]
      cases n1 with
      | leaf r2 e2 d2 s2 => rfl
      | node reg2 elems2 c1 c2 c3 c4 d2 sz2 =>
          show _ = Except.bind (Except.ok (Node.node reg2 elems2 c1 c2 c3 c4 d2 sz2)) _
          simp only [Except.bind]
          by_cases h1 : c1.region.contains rg
          · simp only [h1, if_true]
            cases Node.insert fuel' c1 id rg cap <;> rfl
          · simp only [h1, Bool.false_eq_true, if_false]
            by_cases h2 : c2.region.contains rg
            · simp only [h2, if_true]
              cases Node.insert fuel' c2 id rg cap <;> rfl
            · simp only [h2, Bool.false_eq_true, if_false]
              by_cases h3 : c3.region.contains rg
              · simp only [h3, if_true]
                cases Node.insert fuel' c3 id rg cap <;> rfl
              · simp only [h3, Bool.false_eq_true, if_false]
                by_cases h4 : c4.region.contains rg
                · simp only [h4, if_true]
                  cases Node.insert fuel' c4 id rg cap <;> rfl
                · simp only [h4, Bool.false_eq_true, if_false]
                  rfl

/-- `insert` into a leaf already beyond `max_node_capacity` (possible only
on corrupted trees): both leaf branches are skipped and the `unwrap` of
the absent children faults. -/
theorem insert_leaf_over_cap_eq (fuel' : Nat) (reg : Rect) (elems : List (Nat × Rect))
    (d sz : Nat) (id : Nat) (rg : Rect) (cap : Nat)
    (hc : reg.contains rg = true) (hg : cap < elems.length) :
    Node.insert (fuel' + 1) (Node.leaf reg elems d sz) id rg cap =
      Except.error Fault.childrenMissing := by
  rw [Node.insert.eq_def]
  simp only [region_leaf, is_leaf_leaf, elements_leaf, depth_leaf, size_leaf, hc,
    Bool.not_true, Bool.false_eq_true, if_false, Bool.true_and]
  rw [if_neg (by simp; omega), if_neg (by simp; omega)]
  rfl

/-- `insert` with no fuel on a leaf that cannot take the fast path. -/
theorem insert_fuel_zero_leaf (reg : Rect) (elems : List (Nat × Rect))
    (d sz : Nat) (id : Nat) (rg : Rect) (cap : Nat)
    (hc : reg.contains rg = true) (hge : ¬ elems.length < cap) :
    Node.insert 0 (Node.leaf reg elems d sz) id rg cap = Except.error Fault.outOfFuel := by
  rw [Node.insert.eq_def]
  simp only [region_leaf, is_leaf_leaf, elements_leaf, hc, Bool.not_true,
    Bool.false_eq_true, if_false, Bool.true_and]
  rw [if_neg (by simp [hge])]
  rfl

/-- `insert_node_eq` with positive fuel, match reduced. -/
theorem insert_node_succ_eq (fuel' : Nat) (reg : Rect) (elems : List (Nat × Rect))
    (c1 c2 c3 c4 : Node) (d sz : Nat) (id : Nat) (rg : Rect) (cap : Nat) :
    Node.insert (fuel' + 1) (Node.node reg elems c1 c2 c3 c4 d sz) id rg cap =
      if reg.contains rg = false then Except.error Fault.assertContainmentFailed else
      if c1.region.contains rg then
        (Node.insert fuel' c1 id rg cap).map
          (fun c1' => Node.node reg elems c1' c2 c3 c4 d (sz + 1))
      else if c2.region.contains rg then
        (Node.insert fuel' c2 id rg cap).map
          (fun c2' => Node.node reg elems c1 c2' c3 c4 d (sz + 1))
      else if c3.region.contains rg then
        (Node.insert fuel' c3 id rg cap).map
          (fun c3' => Node.node reg elems c1 c2 c3' c4 d (sz + 1))
      else if c4.region.contains rg then
        (Node.insert fuel' c4 id rg cap).map
          (fun c4' => Node.node reg elems c1 c2 c3 c4' d (sz + 1))
      else
        Except.ok (Node.node reg (mapInsert id rg elems) c1 c2 c3 c4 d (sz + 1)) := by
  rw [insert_node_eq]

theorem containsWF_leaf (r e d s) :
    (Node.leaf r e d s).containsWF = e.all (fun p => r.contains p.2) := rfl

theorem containsWF_node (r e c1 c2 c3 c4 d s) :
    (Node.node r e c1 c2 c3 c4 d s).containsWF =
      (e.all (fun p => r.contains p.2) && c1.containsWF && c2.containsWF &&
       c3.containsWF && c4.containsWF) := rfl

theorem all_mapInsert {β : Type} (P : Nat × β → Bool) (k : Nat) (v : β)
    (l : List (Nat × β)) (hall : l.all P = true) (hv : P (k, v) = true) :
    (mapInsert k v l).all P = true := by
  rw [List.all_eq_true] at *
  intro p hp
  rcases mapInsert_mem k v l p hp with h | h
  · exact hall p h
  · subst h
    exact hv

theorem fold_no_assert (fuel cap : Nat) (reg : Rect)
    (hstep : ∀ (acc : Node) (id : Nat) (rg : Rect),
      Node.containsWF acc = true → acc.region.contains rg = true →
      (Node.insert fuel acc id rg cap ≠ Except.error Fault.assertContainmentFailed) ∧
      (∀ acc', Node.insert fuel acc id rg cap = Except.ok acc' →
        Node.containsWF acc' = true ∧ acc'.region = acc.region)) :
    ∀ (todo : List (Nat × Rect)) (acc : Node),
      Node.containsWF acc = true → acc.region = reg →
      (∀ p ∈ todo, reg.contains p.2 = true) →
      (todo.foldlM (fun a p => Node.insert fuel a p.1 p.2 cap) acc ≠
        Except.error Fault.assertContainmentFailed) ∧
      (∀ m, todo.foldlM (fun a p => Node.insert fuel a p.1 p.2 cap) acc = Except.ok m →
        Node.containsWF m = true ∧ m.region = reg) := by
  intro todo
  induction todo with
  | nil =>
      intro acc hwf hreg _
      constructor
      · simp
      · intro m hm
        simp only [List.foldlM_nil] at hm
        cases hm
        exact ⟨hwf, hreg⟩
  | cons p t ih =>
      intro acc hwf hreg hcont
      have hc : acc.region.contains p.2 = true := by
        rw [hreg]
        exact hcont p (List.mem_cons_self _ _)
      obtain ⟨hne, hpres⟩ := hstep acc p.1 p.2 hwf hc
      cases hs : Node.insert fuel acc p.1 p.2 cap with
      | error e =>
          have hee : e ≠ Fault.assertContainmentFailed := fun h => hne (h ▸ hs)
          constructor
          · simp only [List.foldlM_cons, hs, except_bind_err]
            intro h
            exact hee (by injection h)
          · intro m hm
            simp only [List.foldlM_cons, hs, except_bind_err] at hm
            cases hm
      | ok acc1 =>
          obtain ⟨hwf1, hreg1⟩ := hpres acc1 hs
          have := ih acc1 hwf1 (hreg1.trans hreg)
            (fun q hq => hcont q (List.mem_cons_of_mem _ hq))
          constructor
          · simp only [List.foldlM_cons, hs, except_bind_ok]
            exact this.1
          · intro m hm
            simp only [List.foldlM_cons, hs, except_bind_ok] at hm
            exact this.2 m hm

theorem insert_no_assert :
    ∀ (fuel : Nat) (n : Node) (id : Nat) (rg : Rect) (cap : Nat),
      Node.containsWF n = true → n.region.contains rg = true →
      (Node.insert fuel n id rg cap ≠ Except.error Fault.assertContainmentFailed) ∧
      (∀ n', Node.insert fuel n id rg cap = Except.ok n' →
        Node.containsWF n' = true ∧ n'.region = n.region) := by
  intro fuel
  induction fuel with
  | zero =>
      intro n id rg cap hwf hc
      cases n with
      | leaf reg elems d sz =>
          simp only [region_leaf] at hc ⊢
          by_cases hlt : elems.length < cap
          · rw [insert_leaf_under 0 _ _ _ _ _ _ _ hc hlt]
            refine ⟨by simp, ?_⟩
            intro n' h
            cases h
            refine ⟨?_, rfl⟩
            rw [containsWF_leaf]
            exact all_mapInsert _ _ _ _ (by simpa [containsWF_leaf] using hwf) hc
          · rw [insert_fuel_zero_leaf _ _ _ _ _ _ _ hc hlt]
            exact ⟨by simp, fun n' h => by cases h⟩
      | node reg elems c1 c2 c3 c4 d sz =>
          simp only [region_node] at hc ⊢
          rw [insert_node_eq, if_neg (by simp [hc])]
          exact ⟨by simp, fun n' h => by cases h⟩
  | succ fuel' ih =>
      intro n id rg cap hwf hc
      have hnode : ∀ (reg : Rect) (elems : List (Nat × Rect)) (c1 c2 c3 c4 : Node)
          (d sz : Nat),
          elems.all (fun p => reg.contains p.2) = true →
          Node.containsWF c1 = true → Node.containsWF c2 = true →
          Node.containsWF c3 = true → Node.containsWF c4 = true →
          reg.contains rg = true →
          (Node.insert (fuel' + 1) (Node.node reg elems c1 c2 c3 c4 d sz) id rg cap ≠
            Except.error Fault.assertContainmentFailed) ∧
          (∀ n', Node.insert (fuel' + 1) (Node.node reg elems c1 c2 c3 c4 d sz) id rg cap =
              Except.ok n' →
            Node.containsWF n' = true ∧ n'.region = reg) := by
        intro reg elems c1 c2 c3 c4 d sz hall hw1 hw2 hw3 hw4 hcr
        rw [insert_node_succ_eq, if_neg (by simp [hcr])]
        by_cases h1 : c1.region.contains rg
        · rw [if_pos h1]
          obtain ⟨hne, hpres⟩ := ih c1 id rg cap hw1 h1
          cases hs : Node.insert fuel' c1 id rg cap with
          | error e =>
              refine ⟨?_, fun n' h => by simp [Except.map] at h⟩
              simp only [Except.map]
              intro h
              exact hne (hs.trans (by injection h with h; exact h ▸ rfl))
          | ok c1' =>
              obtain ⟨hwf', hreg'⟩ := hpres c1' hs
              refine ⟨by simp [Except.map], ?_⟩
              intro n' h
              simp only [Except.map, Except.ok.injEq] at h
              subst h
              refine ⟨?_, rfl⟩
              rw [containsWF_node]
              simp [hall, hwf', hw2, hw3, hw4]
        · rw [if_neg h1]
          by_cases h2 : c2.region.contains rg
          · rw [if_pos h2]
            obtain ⟨hne, hpres⟩ := ih c2 id rg cap hw2 h2
            cases hs : Node.insert fuel' c2 id rg cap with
            | error e =>
                refine ⟨?_, fun n' h => by simp [Except.map] at h⟩
                simp only [Except.map]
                intro h
                exact hne (hs.trans (by injection h with h; exact h ▸ rfl))
            | ok c2' =>
                obtain ⟨hwf', hreg'⟩ := hpres c2' hs
                refine ⟨by simp [Except.map], ?_⟩
                intro n' h
                simp only [Except.map, Except.ok.injEq] at h
                subst h
                refine ⟨?_, rfl⟩
                rw [containsWF_node]
                simp [hall, hwf', hw1, hw3, hw4]
          · rw [if_neg h2]
            by_cases h3 : c3.region.contains rg
            · rw [if_pos h3]
              obtain ⟨hne, hpres⟩ := ih c3 id rg cap hw3 h3
              cases hs : Node.insert fuel' c3 id rg cap with
              | error e =>
                  refine ⟨?_, fun n' h => by simp [Except.map] at h⟩
                  simp only [Except.map]
                  intro h
                  exact hne (hs.trans (by injection h with h; exact h ▸ rfl))
              | ok c3' =>
                  obtain ⟨hwf', hreg'⟩ := hpres c3' hs
                  refine ⟨by simp [Except.map], ?_⟩
                  intro n' h
                  simp only [Except.map, Except.ok.injEq] at h
                  subst h
                  refine ⟨?_, rfl⟩
                  rw [containsWF_node]
                  simp [hall, hwf', hw1, hw2, hw4]
            · rw [if_neg h3]
              by_cases h4 : c4.region.contains rg
              · rw [if_pos h4]
                obtain ⟨hne, hpres⟩ := ih c4 id rg cap hw4 h4
                cases hs : Node.insert fuel' c4 id rg cap with
                | error e =>
                    refine ⟨?_, fun n' h => by simp [Except.map] at h⟩
                    simp only [Except.map]
                    intro h
                    exact hne (hs.trans (by injection h with h; exact h ▸ rfl))
                | ok c4' =>
                    obtain ⟨hwf', hreg'⟩ := hpres c4' hs
                    refine ⟨by simp [Except.map], ?_⟩
                    intro n' h
                    simp only [Except.map, Except.ok.injEq] at h
                    subst h
                    refine ⟨?_, rfl⟩
                    rw [containsWF_node]
                    simp [hall, hwf', hw1, hw2, hw3]
              · rw [if_neg h4]
                refine ⟨by simp, ?_⟩
                intro n' h
                simp only [Except.ok.injEq] at h
                subst h
                refine ⟨?_, rfl⟩
                rw [containsWF_node]
                simp only [Bool.and_eq_true]
                exact ⟨⟨⟨⟨all_mapInsert _ _ _ _ hall hcr, hw1⟩, hw2⟩, hw3⟩, hw4⟩
      cases n with
      | node reg elems c1 c2 c3 c4 d sz =>
          simp only [region_node] at hc ⊢
          rw [containsWF_node] at hwf
          simp only [Bool.and_eq_true] at hwf
          obtain ⟨⟨⟨⟨hall, hw1⟩, hw2⟩, hw3⟩, hw4⟩ := hwf
          exact hnode reg elems c1 c2 c3 c4 d sz hall hw1 hw2 hw3 hw4 hc
      | leaf reg elems d sz =>
          simp only [region_leaf] at hc ⊢
          rw [containsWF_leaf] at hwf
          by_cases hlt : elems.length < cap
          · rw [insert_leaf_under (fuel' + 1) _ _ _ _ _ _ _ hc hlt]
            refine ⟨by simp, ?_⟩
            intro n' h
            cases h
            exact ⟨by rw [containsWF_leaf]; exact all_mapInsert _ _ _ _ hwf hc, rfl⟩
          · by_cases heq : elems.length = cap
            · rw [insert_leaf_at_cap_eq fuel' _ _ _ _ _ _ _ hc heq]
              have hfold := fold_no_assert fuel' cap reg
                (fun acc id2 rg2 hacc hc2 => ih acc id2 rg2 cap hacc hc2)
                elems (Node.subdivideStart (Node.leaf reg elems d sz))
                (by simp [Node.containsWF, Node.subdivideStart]) rfl
                (by
                  rw [List.all_eq_true] at hwf
                  intro p hp
                  exact hwf p hp)
              cases hsub : Node.subdivide fuel' (Node.leaf reg elems d sz) cap with
              | error e =>
                  have hee : e ≠ Fault.assertContainmentFailed := by
                    intro hbad
                    exact hfold.1 (by simpa [Node.subdivide, hbad] using hsub)
                  refine ⟨?_, ?_⟩
                  · simp only [Except.bind]
                    intro h
                    exact hee (by injection h)
                  · intro n' h
                    simp only [Except.bind] at h
                    cases h
              | ok n1 =>
                  obtain ⟨hwf1, hreg1⟩ := hfold.2 n1 (by simpa [Node.subdivide] using hsub)
                  simp only [Except.bind]
                  cases n1 with
                  | leaf r2 e2 d2 s2 =>
                      exact ⟨by simp, fun n' h => by cases h⟩
                  | node reg2 elems2 c1 c2 c3 c4 d2 sz2 =>
                      have hreg2 : reg2 = reg := by simpa using hreg1
                      subst hreg2
                      rw [containsWF_node] at hwf1
                      simp only [Bool.and_eq_true] at hwf1
                      obtain ⟨⟨⟨⟨hall, hw1⟩, hw2⟩, hw3⟩, hw4⟩ := hwf1
                      have hcont := hnode reg2 elems2 c1 c2 c3 c4 d2 sz2
                        hall hw1 hw2 hw3 hw4 hc
                      rw [insert_node_succ_eq, if_neg (by simp [hc])] at hcont
                      exact hcont
            · have hgt : cap < elems.length := by omega
              rw [insert_leaf_over_cap_eq _ _ _ _ _ _ _ _ hc hgt]
              exact ⟨by simp, fun n' h => by cases h⟩

/-- The containment `assert!` at the top of `Node::insert` fires exactly
when the region is not contained. -/
theorem insert_assert_fires (fuel : Nat) (n : Node) (id : Nat) (rg : Rect) (cap : Nat)
    (h : n.region.contains rg = false) :
    Node.insert fuel n id rg cap = Except.error Fault.assertContainmentFailed := by
  rw [Node.insert.eq_def]
  simp [h]

/-- Claim C9 as amended.  For a region not contained by the root's
region, `Quadtree::insert` aborts with the containment-assertion fault
(propagated from `Node::insert`), whatever the state.  Conversely, for a
contained region the containment assertion never fires — on any tree
satisfying the hereditary local-containment invariant `containsWF`,
which even stale-move-corrupted reachable states satisfy — though on a
corrupted tree the insert may still abort through a different fault (or
exhaust any recursion bound), so it need not complete normally. -/
theorem c9_amended :
    (∀ (α : Type) (q : Quadtree α) (v : α) (r : Rect) (fuel : Nat),
      q.root.region.contains r = false →
      Quadtree.insertQ fuel q v r = Except.error Fault.assertContainmentFailed) ∧
    (∀ (α : Type) (q : Quadtree α) (v : α) (r : Rect) (fuel : Nat),
      q.root.containsWF = true → q.root.region.contains r = true →
      Quadtree.insertQ fuel q v r ≠ Except.error Fault.assertContainmentFailed) := by
  constructor
  · intro α q v r fuel h
    simp only [Quadtree.insertQ, insert_assert_fires fuel q.root q.next_id r
      q.max_node_capacity h, except_bind_err]
  · intro α q v r fuel hwf hc
    obtain ⟨hne, _⟩ := insert_no_assert fuel q.root q.next_id r q.max_node_capacity hwf hc
    simp only [Quadtree.insertQ]
    cases hs : Node.insert fuel q.root q.next_id r q.max_node_capacity with
    | error e =>
        have hee : e ≠ Fault.assertContainmentFailed := fun hbad => hne (hbad ▸ hs)
        simp only [hs, except_bind_err]
        intro h
        exact hee (by injection h)
    | ok root' =>
        simp only [hs, except_bind_ok, except_pure]
        intro h
        cases h

/-- Witness for `c9_amended`: on the concrete empty tree over
(0,0)–(100,100), an insert at (200,200,5,5) faults with the containment
assertion, and an insert at (10,10,4,4) does not. -/
theorem c9_amended_witness :
    Quadtree.insertQ 5 qStart2 7 (Rect.new 200 200 5 5) =
      Except.error Fault.assertContainmentFailed ∧
    Quadtree.insertQ 5 qStart2 7 (Rect.new 10 10 4 4) ≠
      Except.error Fault.assertContainmentFailed :=
  ⟨c9_amended.1 Nat qStart2 7 (Rect.new 200 200 5 5) 5 (by rfl),
   c9_amended.2 Nat qStart2 7 (Rect.new 10 10 4 4) 5 (by rfl) (by rfl)⟩

/-! ## Unfolding the well-formedness predicate -/

theorem wfB_leaf_iff (cap : Nat) (r : Rect) (e : List (Nat × Rect)) (d s : Nat) :
    Node.wfB cap (Node.leaf r e d s) = true ↔
      s = e.length ∧ e.length ≤ cap ∧ (e.map Prod.fst).Nodup ∧
      ∀ p ∈ e, r.contains p.2 = true := by
  simp [Node.wfB, Bool.and_eq_true, decide_eq_true_eq, List.all_eq_true, and_assoc]

theorem wfB_node_iff (cap : Nat) (r : Rect) (e : List (Nat × Rect))
    (c1 c2 c3 c4 : Node) (d s : Nat) :
    Node.wfB cap (Node.node r e c1 c2 c3 c4 d s) = true ↔
      s = e.length + (c1.size + (c2.size + (c3.size + c4.size))) ∧
      cap + 1 ≤ s ∧
      (((e ++ (c1.idRegions ++ (c2.idRegions ++ (c3.idRegions ++ c4.idRegions)))).map
        Prod.fst).Nodup) ∧
      (∀ p ∈ e ++ (c1.idRegions ++ (c2.idRegions ++ (c3.idRegions ++ c4.idRegions))),
        r.contains p.2 = true) ∧
      (∀ p ∈ e, c1.region.contains p.2 = false ∧ c2.region.contains p.2 = false ∧
                c3.region.contains p.2 = false ∧ c4.region.contains p.2 = false) ∧
      (∀ p ∈ c2.idRegions, c1.region.contains p.2 = false) ∧
      (∀ p ∈ c3.idRegions, c1.region.contains p.2 = false ∧
                           c2.region.contains p.2 = false) ∧
      (∀ p ∈ c4.idRegions, c1.region.contains p.2 = false ∧
                           c2.region.contains p.2 = false ∧
                           c3.region.contains p.2 = false) ∧
      Node.wfB cap c1 = true ∧ Node.wfB cap c2 = true ∧ Node.wfB cap c3 = true ∧
      Node.wfB cap c4 = true := by
  simp only [Node.wfB, Bool.and_eq_true, decide_eq_true_eq, List.all_eq_true,
    Bool.not_eq_true', and_assoc]

theorem perm_bubble {γ : Type} (x : γ) (pre post a a' : List γ)
    (h : List.Perm a' (x :: a)) :
    List.Perm (pre ++ (a' ++ post)) (x :: (pre ++ (a ++ post))) := by
  have h1 : List.Perm (pre ++ (a' ++ post)) (pre ++ ((x :: a) ++ post)) :=
    (h.append_right post).append_left pre
  have h2 : pre ++ ((x :: a) ++ post) = pre ++ (x :: (a ++ post)) := by simp
  have h3 : List.Perm (pre ++ (x :: (a ++ post))) (x :: (pre ++ (a ++ post))) :=
    List.perm_middle
  exact (h2 ▸ h1).trans h3

/-- One step of `insert` on an internal node preserves well-formedness
and has the expected frame effect, given that the recursive call does
(the inductive hypothesis `ih`).  Stated without the `cap + 1 ≤ sz`
bound so it also applies to the node `subdivide` just built, whose size
is exactly `cap`. -/
theorem insert_descend_spec (fuel' cap : Nat)
    (ih : ∀ (n : Node) (id : Nat) (rg : Rect) (n' : Node),
      Node.wfB cap n = true → n.region.contains rg = true →
      id ∉ n.treeIds →
      Node.insert fuel' n id rg cap = Except.ok n' →
      Node.wfB cap n' = true ∧ n'.region = n.region ∧
      n'.size = n.size + 1 ∧ List.Perm n'.idRegions ((id, rg) :: n.idRegions))
    (reg : Rect) (elems : List (Nat × Rect)) (c1 c2 c3 c4 : Node) (d sz : Nat)
    (id : Nat) (rg : Rect) (n' : Node)
    (hI3 : sz = elems.length + (c1.size + (c2.size + (c3.size + c4.size))))
    (hszc : cap ≤ sz)
    (hnd : (((elems ++ (c1.idRegions ++ (c2.idRegions ++
      (c3.idRegions ++ c4.idRegions)))).map Prod.fst).Nodup))
    (hI1 : ∀ p ∈ elems ++ (c1.idRegions ++ (c2.idRegions ++
      (c3.idRegions ++ c4.idRegions))), reg.contains p.2 = true)
    (hw7 : ∀ p ∈ elems, c1.region.contains p.2 = false ∧
      c2.region.contains p.2 = false ∧ c3.region.contains p.2 = false ∧
      c4.region.contains p.2 = false)
    (hw82 : ∀ p ∈ c2.idRegions, c1.region.contains p.2 = false)
    (hw83 : ∀ p ∈ c3.idRegions, c1.region.contains p.2 = false ∧
      c2.region.contains p.2 = false)
    (hw84 : ∀ p ∈ c4.idRegions, c1.region.contains p.2 = false ∧
      c2.region.contains p.2 = false ∧ c3.region.contains p.2 = false)
    (hwc1 : Node.wfB cap c1 = true) (hwc2 : Node.wfB cap c2 = true)
    (hwc3 : Node.wfB cap c3 = true) (hwc4 : Node.wfB cap c4 = true)
    (hc : reg.contains rg = true)
    (hfresh : id ∉ (elems ++ (c1.idRegions ++ (c2.idRegions ++
      (c3.idRegions ++ c4.idRegions)))).map Prod.fst)
    (hok : Node.insert (fuel' + 1) (Node.node reg elems c1 c2 c3 c4 d sz) id rg cap =
      Except.ok n') :
    Node.wfB cap n' = true ∧ n'.region = reg ∧
    n'.size = sz + 1 ∧
    List.Perm n'.idRegions
      ((id, rg) :: (elems ++ (c1.idRegions ++ (c2.idRegions ++
        (c3.idRegions ++ c4.idRegions))))) := by
  have hfr : id ∉ elems.map Prod.fst ∧ id ∉ c1.idRegions.map Prod.fst ∧
      id ∉ c2.idRegions.map Prod.fst ∧ id ∉ c3.idRegions.map Prod.fst ∧
      id ∉ c4.idRegions.map Prod.fst := by
    simp only [List.map_append, List.mem_append, not_or] at hfresh ⊢
    exact hfresh
  rw [insert_node_succ_eq, if_neg (by simp [hc])] at hok
  by_cases hb1 : c1.region.contains rg = true
  · rw [if_pos hb1] at hok
    cases hins : Node.insert fuel' c1 id rg cap with
    | error e => rw [hins] at hok; simp [Except.map] at hok
    | ok c1' =>
        rw [hins] at hok
        simp only [Except.map] at hok
        cases hok
        obtain ⟨hw1, hr1, hs1, hp1⟩ :=
          ih c1 id rg c1' hwc1 hb1 (by simpa [Node.treeIds] using hfr.2.1) hins
        have hpl := perm_bubble (id, rg) elems
          (c2.idRegions ++ (c3.idRegions ++ c4.idRegions))
          c1.idRegions c1'.idRegions hp1
        refine ⟨?_, rfl, rfl, by simpa using hpl⟩
        rw [wfB_node_iff]
        refine ⟨by rw [hs1]; omega, by omega, ?_, ?_, ?_, ?_, ?_, ?_,
          hw1, hwc2, hwc3, hwc4⟩
        · rw [List.Perm.nodup_iff (hpl.map Prod.fst)]
          simp only [List.map_cons]
          exact List.nodup_cons.mpr ⟨hfresh, hnd⟩
        · intro p hp
          rcases List.mem_cons.mp (hpl.mem_iff.mp hp) with h | h
          · subst h; exact hc
          · exact hI1 p h
        · intro p hp
          rw [hr1]
          exact hw7 p hp
        · intro p hp
          rw [hr1]
          exact hw82 p hp
        · intro p hp
          rw [hr1]
          exact hw83 p hp
        · intro p hp
          rw [hr1]
          exact hw84 p hp
  · rw [if_neg hb1] at hok
    by_cases hb2 : c2.region.contains rg = true
    · rw [if_pos hb2] at hok
      cases hins : Node.insert fuel' c2 id rg cap with
      | error e => rw [hins] at hok; simp [Except.map] at hok
      | ok c2' =>
          rw [hins] at hok
          simp only [Except.map] at hok
          cases hok
          obtain ⟨hw2, hr2, hs2, hp2⟩ :=
            ih c2 id rg c2' hwc2 hb2 (by simpa [Node.treeIds] using hfr.2.2.1) hins
          have hpl0 := perm_bubble (id, rg) (elems ++ c1.idRegions)
            (c3.idRegions ++ c4.idRegions) c2.idRegions c2'.idRegions hp2
          have hpl : List.Perm
              (elems ++ (c1.idRegions ++ (c2'.idRegions ++
                (c3.idRegions ++ c4.idRegions))))
              ((id, rg) :: (elems ++ (c1.idRegions ++ (c2.idRegions ++
                (c3.idRegions ++ c4.idRegions))))) := by
            simpa [List.append_assoc] using hpl0
          refine ⟨?_, rfl, rfl, by simpa using hpl⟩
          rw [wfB_node_iff]
          refine ⟨by rw [hs2]; omega, by omega, ?_, ?_, ?_, ?_, ?_, ?_,
            hwc1, hw2, hwc3, hwc4⟩
          · rw [List.Perm.nodup_iff (hpl.map Prod.fst)]
            simp only [List.map_cons]
            exact List.nodup_cons.mpr ⟨hfresh, hnd⟩
          · intro p hp
            rcases List.mem_cons.mp (hpl.mem_iff.mp hp) with h | h
            · subst h; exact hc
            · exact hI1 p h
          · intro p hp
            rw [hr2]
            exact hw7 p hp
          · intro p hp
            rcases List.mem_cons.mp (hp2.mem_iff.mp hp) with h | h
            · subst h
              simpa using hb1
            · exact hw82 p h
          · intro p hp
            rw [hr2]
            exact hw83 p hp
          · intro p hp
            rw [hr2]
            exact hw84 p hp
    · rw [if_neg hb2] at hok
      by_cases hb3 : c3.region.contains rg = true
      · rw [if_pos hb3] at hok
        cases hins : Node.insert fuel' c3 id rg cap with
        | error e => rw [hins] at hok; simp [Except.map] at hok
        | ok c3' =>
            rw [hins] at hok
            simp only [Except.map] at hok
            cases hok
            obtain ⟨hw3, hr3, hs3, hp3⟩ :=
              ih c3 id rg c3' hwc3 hb3
                (by simpa [Node.treeIds] using hfr.2.2.2.1) hins
            have hpl0 := perm_bubble (id, rg)
              (elems ++ c1.idRegions ++ c2.idRegions)
              c4.idRegions c3.idRegions c3'.idRegions hp3
            have hpl : List.Perm
                (elems ++ (c1.idRegions ++ (c2.idRegions ++
                  (c3'.idRegions ++ c4.idRegions))))
                ((id, rg) :: (elems ++ (c1.idRegions ++ (c2.idRegions ++
                  (c3.idRegions ++ c4.idRegions))))) := by
              simpa [List.append_assoc] using hpl0
            refine ⟨?_, rfl, rfl, by simpa using hpl⟩
            rw [wfB_node_iff]
            refine ⟨by rw [hs3]; omega, by omega, ?_, ?_, ?_, ?_, ?_, ?_,
              hwc1, hwc2, hw3, hwc4⟩
            · rw [List.Perm.nodup_iff (hpl.map Prod.fst)]
              simp only [List.map_cons]
              exact List.nodup_cons.mpr ⟨hfresh, hnd⟩
            · intro p hp
              rcases List.mem_cons.mp (hpl.mem_iff.mp hp) with h | h
              · subst h; exact hc
              · exact hI1 p h
            · intro p hp
              rw [hr3]
              exact hw7 p hp
            · intro p hp
              exact hw82 p hp
            · intro p hp
              rcases List.mem_cons.mp (hp3.mem_iff.mp hp) with h | h
              · subst h
                exact ⟨by simpa using hb1, by simpa using hb2⟩
              · exact hw83 p h
            · intro p hp
              rw [hr3]
              exact hw84 p hp
      · rw [if_neg hb3] at hok
        by_cases hb4 : c4.region.contains rg = true
        · rw [if_pos hb4] at hok
          cases hins : Node.insert fuel' c4 id rg cap with
          | error e => rw [hins] at hok; simp [Except.map] at hok
          | ok c4' =>
              rw [hins] at hok
              simp only [Except.map] at hok
              cases hok
              obtain ⟨hw4, hr4, hs4, hp4⟩ :=
                ih c4 id rg c4' hwc4 hb4
                  (by simpa [Node.treeIds] using hfr.2.2.2.2) hins
              have hpl0 := perm_bubble (id, rg)
                (elems ++ c1.idRegions ++ c2.idRegions ++ c3.idRegions)
                ([] : List (Nat × Rect)) c4.idRegions c4'.idRegions hp4
              have hpl : List.Perm
                  (elems ++ (c1.idRegions ++ (c2.idRegions ++
                    (c3.idRegions ++ c4'.idRegions))))
                  ((id, rg) :: (elems ++ (c1.idRegions ++ (c2.idRegions ++
                    (c3.idRegions ++ c4.idRegions))))) := by
                simpa [List.append_assoc] using hpl0
              refine ⟨?_, rfl, rfl, by simpa using hpl⟩
              rw [wfB_node_iff]
              refine ⟨by rw [hs4]; omega, by omega, ?_, ?_, ?_, ?_, ?_, ?_,
                hwc1, hwc2, hwc3, hw4⟩
              · rw [List.Perm.nodup_iff (hpl.map Prod.fst)]
                simp only [List.map_cons]
                exact List.nodup_cons.mpr ⟨hfresh, hnd⟩
              · intro p hp
                rcases List.mem_cons.mp (hpl.mem_iff.mp hp) with h | h
                · subst h; exact hc
                · exact hI1 p h
              · intro p hp
                rw [hr4]
                exact hw7 p hp
              · intro p hp
                exact hw82 p hp
              · intro p hp
                exact hw83 p hp
              · intro p hp
                rcases List.mem_cons.mp (hp4.mem_iff.mp hp) with h | h
                · subst h
                  exact ⟨by simpa using hb1, by simpa using hb2, by simpa using hb3⟩
                · exact hw84 p h
        · rw [if_neg hb4] at hok
          cases hok
          rw [mapInsert_fresh _ _ _ hfr.1]
          have h1 : List.Perm (elems ++ [(id, rg)]) ((id, rg) :: elems) :=
            List.perm_append_singleton _ _
          have hpl : List.Perm
              ((elems ++ [(id, rg)]) ++ (c1.idRegions ++ (c2.idRegions ++
                (c3.idRegions ++ c4.idRegions))))
              ((id, rg) :: (elems ++ (c1.idRegions ++ (c2.idRegions ++
                (c3.idRegions ++ c4.idRegions))))) :=
            h1.append_right _
          refine ⟨?_, rfl, rfl, by simpa using hpl⟩
          rw [wfB_node_iff]
          refine ⟨by simp; omega, by omega, ?_, ?_, ?_, hw82, hw83, hw84,
            hwc1, hwc2, hwc3, hwc4⟩
          · rw [List.Perm.nodup_iff (hpl.map Prod.fst)]
            simp only [List.map_cons]
            exact List.nodup_cons.mpr ⟨hfresh, hnd⟩
          · intro p hp
            rcases List.mem_cons.mp (hpl.mem_iff.mp hp) with h | h
            · subst h; exact hc
            · exact hI1 p h
          · intro p hp
            rcases List.mem_append.mp hp with h | h
            · exact hw7 p h
            · rcases List.mem_singleton.mp h with rfl
              exact ⟨by simpa using hb1, by simpa using hb2,
                by simpa using hb3, by simpa using hb4⟩

/-- `insert` of a fresh id with a contained region into a well-formed
tree preserves well-formedness and has the frame effect: region
unchanged, `size` incremented, and the recorded (id, region) pairs
extended by the new pair (whenever the fuel suffices for the call to
return `ok`).  Depth is not listed: when the insert subdivides a leaf,
the source resets that node's depth to 0 (see `c5_subdivide_frame`). -/
theorem insert_spec :
    ∀ (fuel : Nat) (n : Node) (id : Nat) (rg : Rect) (cap : Nat) (n' : Node),
      Node.wfB cap n = true → n.region.contains rg = true →
      id ∉ n.treeIds →
      Node.insert fuel n id rg cap = Except.ok n' →
      Node.wfB cap n' = true ∧ n'.region = n.region ∧
      n'.size = n.size + 1 ∧ List.Perm n'.idRegions ((id, rg) :: n.idRegions) := by
  intro fuel
  induction fuel with
  | zero =>
      intro n id rg cap n' hwf hc hfresh hok
      cases n with
      | leaf reg elems d sz =>
          rw [wfB_leaf_iff] at hwf
          obtain ⟨hsz, hlen, hnd, hI1⟩ := hwf
          simp only [region_leaf] at hc
          have hfr : id ∉ elems.map Prod.fst := by
            simpa [Node.treeIds] using hfresh
          by_cases hlt : elems.length < cap
          · rw [insert_leaf_under 0 _ _ _ _ _ _ _ hc hlt] at hok
            cases hok
            rw [mapInsert_fresh _ _ _ hfr]
            refine ⟨?_, rfl, rfl, List.perm_append_singleton _ _⟩
            rw [wfB_leaf_iff]
            refine ⟨by simp [hsz], by simp; omega, ?_, ?_⟩
            · have hp := (List.perm_append_singleton (id, rg) elems).map Prod.fst
              rw [hp.nodup_iff]
              simp only [List.map_cons]
              exact List.nodup_cons.mpr ⟨hfr, hnd⟩
            · intro p hp
              rcases List.mem_append.mp hp with h | h
              · exact hI1 p h
              · rcases List.mem_singleton.mp h with rfl
                exact hc
          · rw [insert_fuel_zero_leaf _ _ _ _ _ _ _ hc hlt] at hok
            simp at hok
      | node reg elems c1 c2 c3 c4 d sz =>
          rw [insert_node_eq] at hok
          simp only [region_node] at hc
          rw [if_neg (by simp [hc])] at hok
          simp at hok
  | succ fuel' ih =>
      intro n id rg cap n' hwf hc hfresh hok
      cases n with
      | node reg elems c1 c2 c3 c4 d sz =>
          rw [wfB_node_iff] at hwf
          obtain ⟨hI3, hw5, hndA, hI1, hw7, hw82, hw83, hw84, hwc1, hwc2,
            hwc3, hwc4⟩ := hwf
          simp only [region_node] at hc
          have h := insert_descend_spec fuel' cap
            (fun m i r m' => ih m i r cap m') reg elems c1 c2 c3 c4 d sz
            id rg n' hI3 (Nat.le_of_succ_le hw5) hndA hI1 hw7 hw82 hw83 hw84
            hwc1 hwc2 hwc3 hwc4 hc
            (by simpa [Node.treeIds] using hfresh) hok
          simpa using h
      | leaf reg elems d sz =>
          rw [wfB_leaf_iff] at hwf
          obtain ⟨hsz, hlen, hnd, hI1⟩ := hwf
          simp only [region_leaf] at hc
          have hfr : id ∉ elems.map Prod.fst := by
            simpa [Node.treeIds] using hfresh
          by_cases hlt : elems.length < cap
          · rw [insert_leaf_under (fuel' + 1) _ _ _ _ _ _ _ hc hlt] at hok
            cases hok
            rw [mapInsert_fresh _ _ _ hfr]
            refine ⟨?_, rfl, rfl, List.perm_append_singleton _ _⟩
            rw [wfB_leaf_iff]
            refine ⟨by simp [hsz], by simp; omega, ?_, ?_⟩
            · have hp := (List.perm_append_singleton (id, rg) elems).map Prod.fst
              rw [hp.nodup_iff]
              simp only [List.map_cons]
              exact List.nodup_cons.mpr ⟨hfr, hnd⟩
            · intro p hp
              rcases List.mem_append.mp hp with h | h
              · exact hI1 p h
              · rcases List.mem_singleton.mp h with rfl
                exact hc
          · have hl : elems.length = cap := Nat.le_antisymm hlen (Nat.le_of_not_lt hlt)
            rw [insert_leaf_at_cap_eq fuel' _ _ _ _ _ _ _ hc hl] at hok
            cases hsub : Node.subdivide fuel' (Node.leaf reg elems d sz) cap with
            | error e => rw [hsub] at hok; simp [Except.bind] at hok
            | ok n1 =>
                rw [hsub] at hok
                simp only [Except.bind] at hok
                obtain ⟨hinv, hcont⟩ := subdivide_spec fuel' cap reg elems d sz n1 hnd hl hsub
                obtain ⟨e0, e1, e2, e3, e4, hacc, hperm, h0, h1, h2, h3, h4⟩ := hinv
                subst hacc
                simp only [FoldShape] at hok
                have hL : e0.length + (e1.length + (e2.length + (e3.length +
                    e4.length))) = cap := by
                  have := hperm.length_eq
                  simp only [List.length_append] at this
                  omega
                have hok2 : Node.insert (fuel' + 1)
                    (Node.node reg e0
                      (Node.leaf (Node.quadTL reg) e1 (d + 1) e1.length)
                      (Node.leaf (Node.quadTR reg) e2 (d + 1) e2.length)
                      (Node.leaf (Node.quadBL reg) e3 (d + 1) e3.length)
                      (Node.leaf (Node.quadBR reg) e4 (d + 1) e4.length)
                      0 (e0.length + (e1.length + (e2.length + (e3.length +
                        e4.length))))) id rg cap = Except.ok n' := by
                  rw [insert_node_succ_eq, if_neg (by simp [hc])]
                  exact hok
                have hndC : ((e0 ++ (e1 ++ (e2 ++ (e3 ++ e4)))).map
                    Prod.fst).Nodup := by
                  rw [List.Perm.nodup_iff (hperm.map Prod.fst)]
                  exact hnd
                have hfreshC : id ∉ (e0 ++ (e1 ++ (e2 ++ (e3 ++ e4)))).map
                    Prod.fst := fun hm => hfr ((hperm.map Prod.fst).mem_iff.mp hm)
                have hsubl1 : e1.Sublist (e0 ++ (e1 ++ (e2 ++ (e3 ++ e4)))) :=
                  ((List.sublist_append_left e1 (e2 ++ (e3 ++ e4))).trans
                    (List.sublist_append_right e0 _))
                have hsubl2 : e2.Sublist (e0 ++ (e1 ++ (e2 ++ (e3 ++ e4)))) :=
                  (((List.sublist_append_left e2 (e3 ++ e4)).trans
                    (List.sublist_append_right e1 _)).trans
                    (List.sublist_append_right e0 _))
                have hsubl3 : e3.Sublist (e0 ++ (e1 ++ (e2 ++ (e3 ++ e4)))) :=
                  ((((List.sublist_append_left e3 e4).trans
                    (List.sublist_append_right e2 _)).trans
                    (List.sublist_append_right e1 _)).trans
                    (List.sublist_append_right e0 _))
                have hsubl4 : e4.Sublist (e0 ++ (e1 ++ (e2 ++ (e3 ++ e4)))) :=
                  ((((List.sublist_append_right e3 e4).trans
                    (List.sublist_append_right e2 _)).trans
                    (List.sublist_append_right e1 _)).trans
                    (List.sublist_append_right e0 _))
                have hlenC := hperm.length_eq
                have hds := insert_descend_spec fuel' cap
                  (fun m i r m' => ih m i r cap m') reg e0 _ _ _ _ 0 _
                  id rg n' (by simp) (by omega) (by simpa using hndC)
                  (by
                    simp only [idRegions_leaf]
                    intro p hp
                    exact hcont p (hperm.mem_iff.mp hp))
                  (by
                    simp only [region_leaf]
                    intro p hp
                    exact h0 p hp)
                  (by
                    simp only [idRegions_leaf, region_leaf]
                    intro p hp
                    exact (h2 p hp).2)
                  (by
                    simp only [idRegions_leaf, region_leaf]
                    intro p hp
                    exact ⟨(h3 p hp).2.1, (h3 p hp).2.2⟩)
                  (by
                    simp only [idRegions_leaf, region_leaf]
                    intro p hp
                    exact ⟨(h4 p hp).2.1, (h4 p hp).2.2.1, (h4 p hp).2.2.2⟩)
                  (by
                    rw [wfB_leaf_iff]
                    refine ⟨rfl, ?_, (List.Sublist.map Prod.fst hsubl1).nodup hndC, ?_⟩
                    · have := hsubl1.length_le
                      simp only [List.length_append] at hlenC
                      omega
                    · intro p hp
                      exact h1 p hp)
                  (by
                    rw [wfB_leaf_iff]
                    refine ⟨rfl, ?_, (List.Sublist.map Prod.fst hsubl2).nodup hndC, ?_⟩
                    · have := hsubl2.length_le
                      simp only [List.length_append] at hlenC
                      omega
                    · intro p hp
                      exact (h2 p hp).1)
                  (by
                    rw [wfB_leaf_iff]
                    refine ⟨rfl, ?_, (List.Sublist.map Prod.fst hsubl3).nodup hndC, ?_⟩
                    · have := hsubl3.length_le
                      simp only [List.length_append] at hlenC
                      omega
                    · intro p hp
                      exact (h3 p hp).1)
                  (by
                    rw [wfB_leaf_iff]
                    refine ⟨rfl, ?_, (List.Sublist.map Prod.fst hsubl4).nodup hndC, ?_⟩
                    · have := hsubl4.length_le
                      simp only [List.length_append] at hlenC
                      omega
                    · intro p hp
                      exact (h4 p hp).1)
                  hc (by simpa using hfreshC) hok2
                obtain ⟨hw', hr', hs', hp'⟩ := hds
                refine ⟨hw', by simpa using hr', ?_, ?_⟩
                · simp only [size_leaf]
                  omega
                · simp only [idRegions_leaf]
                  refine hp'.trans ?_
                  have : List.Perm (e0 ++ ((Node.leaf (Node.quadTL reg) e1 (d + 1)
                      e1.length).idRegions ++ ((Node.leaf (Node.quadTR reg) e2 (d + 1)
                      e2.length).idRegions ++ ((Node.leaf (Node.quadBL reg) e3 (d + 1)
                      e3.length).idRegions ++ (Node.leaf (Node.quadBR reg) e4 (d + 1)
                      e4.length).idRegions)))) elems := by
                    simpa using hperm
                  exact this.cons (id, rg)

/-! ## Unfolding lemmas for `Node.remove` and `Node.fuse` -/

theorem remove_leaf_eq (reg : Rect) (elems : List (Nat × Rect)) (d sz : Nat)
    (id : Nat) (rg : Rect) (cap : Nat) :
    Node.remove (Node.leaf reg elems d sz) id rg cap =
      if sz = 0 then Except.error Fault.sizeUnderflow else
      if sz - 1 = cap then (Node.leaf reg (mapErase id elems) d (sz - 1)).fuse
      else Except.ok (Node.leaf reg (mapErase id elems) d (sz - 1)) := rfl

theorem remove_node_eq (reg : Rect) (elems : List (Nat × Rect))
    (c1 c2 c3 c4 : Node) (d sz : Nat) (id : Nat) (rg : Rect) (cap : Nat) :
    Node.remove (Node.node reg elems c1 c2 c3 c4 d sz) id rg cap =
      if sz = 0 then Except.error Fault.sizeUnderflow else
      ((if c1.region.contains rg then
          (Node.remove c1 id rg cap) >>= (fun c1' =>
            Except.ok (Node.node reg (mapErase id elems) c1' c2 c3 c4 d (sz - 1)))
        else if c2.region.contains rg then
          (Node.remove c2 id rg cap) >>= (fun c2' =>
            Except.ok (Node.node reg (mapErase id elems) c1 c2' c3 c4 d (sz - 1)))
        else if c3.region.contains rg then
          (Node.remove c3 id rg cap) >>= (fun c3' =>
            Except.ok (Node.node reg (mapErase id elems) c1 c2 c3' c4 d (sz - 1)))
        else if c4.region.contains rg then
          (Node.remove c4 id rg cap) >>= (fun c4' =>
            Except.ok (Node.node reg (mapErase id elems) c1 c2 c3 c4' d (sz - 1)))
        else
          Except.ok (Node.node reg (mapErase id elems) c1 c2 c3 c4 d (sz - 1)))
        >>= (fun n' => if sz - 1 = cap then n'.fuse else Except.ok n')) := by
  by_cases h0 : sz = 0
  · rw [Node.remove.eq_def]
    simp [h0]
  · rw [Node.remove.eq_def]
    by_cases hb1 : c1.region.contains rg = true
    · cases hr : Node.remove c1 id rg cap with
      | error e => simp [h0, hb1, hr]
      | ok c1' => simp [h0, hb1, hr]
    · by_cases hb2 : c2.region.contains rg = true
      · cases hr : Node.remove c2 id rg cap with
        | error e => simp [h0, hb1, hb2, hr]
        | ok c2' => simp [h0, hb1, hb2, hr]
      · by_cases hb3 : c3.region.contains rg = true
        · cases hr : Node.remove c3 id rg cap with
          | error e => simp [h0, hb1, hb2, hb3, hr]
          | ok c3' => simp [h0, hb1, hb2, hb3, hr]
        · by_cases hb4 : c4.region.contains rg = true
          · cases hr : Node.remove c4 id rg cap with
            | error e => simp [h0, hb1, hb2, hb3, hb4, hr]
            | ok c4' => simp [h0, hb1, hb2, hb3, hb4, hr]
          · simp [h0, hb1, hb2, hb3, hb4]

/-- `fuse` on a node whose children are all leaves, with globally distinct
ids: the merge is plain concatenation. -/
theorem fuse_spec (reg : Rect) (elems e1 e2 e3 e4 : List (Nat × Rect))
    (r1 r2 r3 r4 : Rect) (d d1 d2 d3 d4 sz s1 s2 s3 s4 : Nat)
    (hnd : ((elems ++ (e1 ++ (e2 ++ (e3 ++ e4)))).map Prod.fst).Nodup) :
    Node.fuse (Node.node reg elems (Node.leaf r1 e1 d1 s1) (Node.leaf r2 e2 d2 s2)
      (Node.leaf r3 e3 d3 s3) (Node.leaf r4 e4 d4 s4) d sz) =
      Except.ok (Node.leaf reg (elems ++ (e1 ++ (e2 ++ (e3 ++ e4)))) d sz) := by
  have hndT : ((e1 ++ (e2 ++ (e3 ++ e4))).map Prod.fst).Nodup :=
    ((List.sublist_append_right elems _).map Prod.fst).nodup hnd
  have hnd12 : ((e1 ++ e2).map Prod.fst).Nodup :=
    (((List.sublist_append_left e2 (e3 ++ e4)).append_left e1).map Prod.fst).nodup hndT
  have hnd123 : (((e1 ++ e2) ++ e3).map Prod.fst).Nodup := by
    rw [List.append_assoc]
    exact ((((List.sublist_append_left e3 e4).append_left e2).append_left
      e1).map Prod.fst).nodup hndT
  have hnd1234 : ((elems ++ (((e1 ++ e2) ++ e3) ++ e4)).map Prod.fst).Nodup := by
    simpa [List.append_assoc] using hnd
  have h12 : mapExtend e1 e2 = e1 ++ e2 := mapExtend_disjoint e2 e1 hnd12
  have h123 : mapExtend (e1 ++ e2) e3 = (e1 ++ e2) ++ e3 :=
    mapExtend_disjoint e3 (e1 ++ e2) hnd123
  have h1234 : mapExtend ((e1 ++ e2) ++ e3) e4 = ((e1 ++ e2) ++ e3) ++ e4 := by
    apply mapExtend_disjoint
    simpa [List.append_assoc] using hndT
  have hout : mapExtend elems (((e1 ++ e2) ++ e3) ++ e4) =
      elems ++ ((((e1 ++ e2) ++ e3) ++ e4)) :=
    mapExtend_disjoint _ elems hnd1234
  have hraw : Node.fuse (Node.node reg elems (Node.leaf r1 e1 d1 s1)
      (Node.leaf r2 e2 d2 s2) (Node.leaf r3 e3 d3 s3) (Node.leaf r4 e4 d4 s4) d sz) =
      Except.ok (Node.leaf reg
        (mapExtend elems (mapExtend (mapExtend (mapExtend e1 e2) e3) e4)) d sz) := rfl
  rw [hraw, h12, h123, h1234, hout]
  simp [List.append_assoc]

/-! ## Helper facts about well-formed trees -/

/-- Every pair recorded anywhere in a well-formed subtree has its region
contained in the subtree root's region. -/
theorem wfB_deep_I1 (cap : Nat) (n : Node) (h : Node.wfB cap n = true) :
    ∀ p ∈ n.idRegions, n.region.contains p.2 = true := by
  cases n with
  | leaf reg elems d sz =>
      rw [wfB_leaf_iff] at h
      simpa using h.2.2.2
  | node reg elems c1 c2 c3 c4 d sz =>
      rw [wfB_node_iff] at h
      simpa using h.2.2.2.1

/-- In a well-formed subtree the `size` field counts the recorded pairs. -/
theorem wfB_size_eq_len (cap : Nat) :
    ∀ (n : Node), Node.wfB cap n = true → n.size = n.idRegions.length := by
  intro n
  induction n with
  | leaf reg elems d sz =>
      intro h
      rw [wfB_leaf_iff] at h
      simpa using h.1
  | node reg elems c1 c2 c3 c4 d sz ih1 ih2 ih3 ih4 =>
      intro h
      rw [wfB_node_iff] at h
      obtain ⟨hI3, _, _, _, _, _, _, _, hw1, hw2, hw3, hw4⟩ := h
      simp only [size_node, idRegions_node, List.length_append]
      rw [hI3, ih1 hw1, ih2 hw2, ih3 hw3, ih4 hw4]

/-- A well-formed subtree whose size does not exceed the capacity is a
leaf (an internal node always holds more than `cap` elements). -/
theorem wfB_le_cap_leaf (cap : Nat) (n : Node) (hw : Node.wfB cap n = true)
    (hs : n.size ≤ cap) : ∃ r e d1 s1, n = Node.leaf r e d1 s1 := by
  cases n with
  | leaf r e d1 s1 => exact ⟨r, e, d1, s1, rfl⟩
  | node reg elems c1 c2 c3 c4 d sz =>
      rw [wfB_node_iff] at hw
      simp only [size_node] at hs
      omega

/-- The trailing step of `remove` on an internal node: the rebuilt node
either stands (size still above `cap`) or fuses into a leaf (size exactly
`cap`, in which case every child must be a leaf by the size invariant).
Either way the result is well-formed and the frame effect is the removal
of the one pair. -/
theorem remove_post_spec (cap : Nat) (reg : Rect) (elems' : List (Nat × Rect))
    (k1 k2 k3 k4 : Node) (d sz : Nat) (id : Nat) (rg : Rect)
    (orig : List (Nat × Rect))
    (hndO : (orig.map Prod.fst).Nodup)
    (hI1O : ∀ p ∈ orig, reg.contains p.2 = true)
    (hlenO : orig.length = sz)
    (hperm : List.Perm ((id, rg) :: (elems' ++ (k1.idRegions ++ (k2.idRegions ++
      (k3.idRegions ++ k4.idRegions))))) orig)
    (hI3 : sz - 1 = elems'.length + (k1.size + (k2.size + (k3.size + k4.size))))
    (hw5 : cap + 1 ≤ sz)
    (hw7 : ∀ p ∈ elems', k1.region.contains p.2 = false ∧
      k2.region.contains p.2 = false ∧ k3.region.contains p.2 = false ∧
      k4.region.contains p.2 = false)
    (hw82 : ∀ p ∈ k2.idRegions, k1.region.contains p.2 = false)
    (hw83 : ∀ p ∈ k3.idRegions, k1.region.contains p.2 = false ∧
      k2.region.contains p.2 = false)
    (hw84 : ∀ p ∈ k4.idRegions, k1.region.contains p.2 = false ∧
      k2.region.contains p.2 = false ∧ k3.region.contains p.2 = false)
    (hwk1 : Node.wfB cap k1 = true) (hwk2 : Node.wfB cap k2 = true)
    (hwk3 : Node.wfB cap k3 = true) (hwk4 : Node.wfB cap k4 = true) :
    ∃ n', (if sz - 1 = cap
        then (Node.node reg elems' k1 k2 k3 k4 d (sz - 1)).fuse
        else Except.ok (Node.node reg elems' k1 k2 k3 k4 d (sz - 1))) =
        Except.ok n' ∧
      Node.wfB cap n' = true ∧ n'.region = reg ∧ n'.depth = d ∧
      n'.size + 1 = sz ∧ List.Perm ((id, rg) :: n'.idRegions) orig := by
  have hndC : ((elems' ++ (k1.idRegions ++ (k2.idRegions ++
      (k3.idRegions ++ k4.idRegions)))).map Prod.fst).Nodup := by
    have h := (List.Perm.nodup_iff (hperm.map Prod.fst)).mpr hndO
    simp only [List.map_cons] at h
    exact (List.nodup_cons.mp h).2
  have hI1C : ∀ p ∈ elems' ++ (k1.idRegions ++ (k2.idRegions ++
      (k3.idRegions ++ k4.idRegions))), reg.contains p.2 = true := by
    intro p hp
    exact hI1O p (hperm.mem_iff.mp (List.mem_cons_of_mem _ hp))
  have hlenC : 1 + (elems' ++ (k1.idRegions ++ (k2.idRegions ++
      (k3.idRegions ++ k4.idRegions)))).length = sz := by
    have h := hperm.length_eq
    simp only [List.length_cons] at h
    omega
  by_cases hfu : sz - 1 = cap
  · obtain ⟨r1, e1, dd1, s1, rfl⟩ := wfB_le_cap_leaf cap k1 hwk1 (by omega)
    obtain ⟨r2, e2, dd2, s2, rfl⟩ := wfB_le_cap_leaf cap k2 hwk2 (by omega)
    obtain ⟨r3, e3, dd3, s3, rfl⟩ := wfB_le_cap_leaf cap k3 hwk3 (by omega)
    obtain ⟨r4, e4, dd4, s4, rfl⟩ := wfB_le_cap_leaf cap k4 hwk4 (by omega)
    rw [if_pos hfu]
    rw [fuse_spec reg elems' e1 e2 e3 e4 r1 r2 r3 r4 d dd1 dd2 dd3 dd4 (sz - 1)
      s1 s2 s3 s4 (by simpa using hndC)]
    refine ⟨_, rfl, ?_, rfl, rfl, by simp only [size_leaf]; omega,
      by simpa using hperm⟩
    rw [wfB_leaf_iff]
    refine ⟨?_, ?_, by simpa using hndC, by simpa using hI1C⟩
    · simp only [idRegions_leaf] at hlenC
      omega
    · simp only [idRegions_leaf] at hlenC
      omega
  · rw [if_neg hfu]
    refine ⟨_, rfl, ?_, rfl, rfl, by simp only [size_node]; omega,
      by simpa using hperm⟩
    rw [wfB_node_iff]
    exact ⟨hI3, by omega, hndC, hI1C, hw7, hw82, hw83, hw84,
      hwk1, hwk2, hwk3, hwk4⟩

/-- `remove` of a recorded pair from a well-formed tree succeeds,
preserves well-formedness, leaves region and depth unchanged, decrements
`size`, and removes exactly that pair from the recorded pairs. -/
theorem remove_spec :
    ∀ (n : Node) (id : Nat) (rg : Rect) (cap : Nat),
      Node.wfB cap n = true →
      (id, rg) ∈ n.idRegions →
      ∃ n', Node.remove n id rg cap = Except.ok n' ∧
        Node.wfB cap n' = true ∧ n'.region = n.region ∧ n'.depth = n.depth ∧
        n'.size + 1 = n.size ∧
        List.Perm ((id, rg) :: n'.idRegions) n.idRegions := by
  intro n
  induction n with
  | leaf reg elems d sz =>
      intro id rg cap hwf hmem
      rw [wfB_leaf_iff] at hwf
      obtain ⟨hsz, hlen, hnd, hI1⟩ := hwf
      simp only [idRegions_leaf] at hmem
      have hpos : 0 < elems.length := List.length_pos.mpr (List.ne_nil_of_mem hmem)
      rw [remove_leaf_eq, if_neg (by omega), if_neg (by omega)]
      refine ⟨_, rfl, ?_, rfl, rfl, by simp only [size_leaf]; omega, ?_⟩
      · rw [wfB_leaf_iff]
        have hml := mapErase_len id rg elems hnd hmem
        refine ⟨by omega, by omega, ?_, ?_⟩
        · exact ((mapErase_sublist id elems).map Prod.fst).nodup hnd
        · intro p hp
          exact hI1 p ((mapErase_sublist id elems).subset hp)
      · simp only [idRegions_leaf]
        exact mapErase_perm id rg elems hnd hmem
  | node reg elems c1 c2 c3 c4 d sz ih1 ih2 ih3 ih4 =>
      intro id rg cap hwf hmem
      have hwf' := hwf
      rw [wfB_node_iff] at hwf
      obtain ⟨hI3, hw5, hnd, hI1, hw7, hw82, hw83, hw84, hwc1, hwc2,
        hwc3, hwc4⟩ := hwf
      simp only [idRegions_node] at hmem
      have hlenO : (elems ++ (c1.idRegions ++ (c2.idRegions ++
          (c3.idRegions ++ c4.idRegions)))).length = sz := by
        have h := wfB_size_eq_len cap (Node.node reg elems c1 c2 c3 c4 d sz) hwf'
        simpa using h.symm
      have hdisj := (List.nodup_append.mp
        (by simpa [List.map_append] using hnd)).2.2
      rw [remove_node_eq, if_neg (by omega)]
      rcases List.mem_append.mp hmem with hloc | hrest
      · have hq := hw7 (id, rg) hloc
        rw [if_neg (by simp [hq.1]), if_neg (by simp [hq.2.1]),
          if_neg (by simp [hq.2.2.1]), if_neg (by simp [hq.2.2.2])]
        simp only [except_bind_ok]
        have hndE : (elems.map Prod.fst).Nodup :=
          List.Nodup.of_append_left (by simpa [List.map_append] using hnd)
        have hpe := mapErase_perm id rg elems hndE hloc
        have hml := mapErase_len id rg elems hndE hloc
        simp only [region_node, depth_node, size_node, idRegions_node]
        refine remove_post_spec cap reg (mapErase id elems) c1 c2 c3 c4 d sz id rg
          _ hnd hI1 hlenO ?_ (by omega) hw5 ?_ hw82 hw83 hw84 hwc1 hwc2 hwc3 hwc4
        · exact hpe.append_right _
        · intro p hp
          exact hw7 p ((mapErase_sublist id elems).subset hp)
      rcases List.mem_append.mp hrest with hm1 | hrest2
      · have hb1 : c1.region.contains rg = true :=
          wfB_deep_I1 cap c1 hwc1 _ hm1
        rw [if_pos hb1]
        obtain ⟨n1', hrem, hw1, hr1, hd1, hs1, hp1⟩ := ih1 id rg cap hwc1 hm1
        rw [hrem]
        simp only [except_bind_ok]
        have hidc : id ∈ c1.idRegions.map Prod.fst :=
          List.mem_map.mpr ⟨(id, rg), hm1, rfl⟩
        have hne : id ∉ elems.map Prod.fst := fun hin =>
          hdisj hin (by simp [hidc])
        rw [mapErase_absent id elems hne]
        have hpl := perm_bubble (id, rg) elems
          (c2.idRegions ++ (c3.idRegions ++ c4.idRegions))
          n1'.idRegions c1.idRegions hp1.symm
        simp only [region_node, depth_node, size_node, idRegions_node]
        refine remove_post_spec cap reg elems n1' c2 c3 c4 d sz id rg
          _ hnd hI1 hlenO hpl.symm (by omega) hw5 ?_ ?_ ?_ ?_ hw1 hwc2 hwc3 hwc4
        · intro p hp
          rw [hr1]
          exact hw7 p hp
        · intro p hp
          rw [hr1]
          exact hw82 p hp
        · intro p hp
          rw [hr1]
          exact hw83 p hp
        · intro p hp
          rw [hr1]
          exact hw84 p hp
      rcases List.mem_append.mp hrest2 with hm2 | hrest3
      · have hb1 : c1.region.contains rg = false := hw82 (id, rg) hm2
        have hb2 : c2.region.contains rg = true :=
          wfB_deep_I1 cap c2 hwc2 _ hm2
        rw [if_neg (by simp [hb1]), if_pos hb2]
        obtain ⟨n2', hrem, hw2, hr2, hd2, hs2, hp2⟩ := ih2 id rg cap hwc2 hm2
        rw [hrem]
        simp only [except_bind_ok]
        have hidc : id ∈ c2.idRegions.map Prod.fst :=
          List.mem_map.mpr ⟨(id, rg), hm2, rfl⟩
        have hne : id ∉ elems.map Prod.fst := fun hin =>
          hdisj hin (by simp [hidc])
        rw [mapErase_absent id elems hne]
        have hpl0 := perm_bubble (id, rg) (elems ++ c1.idRegions)
          (c3.idRegions ++ c4.idRegions)
          n2'.idRegions c2.idRegions hp2.symm
        have hpl : List.Perm
            ((id, rg) :: (elems ++ (c1.idRegions ++ (n2'.idRegions ++
              (c3.idRegions ++ c4.idRegions)))))
            (elems ++ (c1.idRegions ++ (c2.idRegions ++
              (c3.idRegions ++ c4.idRegions)))) := by
          have h := hpl0.symm
          refine List.Perm.trans ?_ (by simpa [List.append_assoc] using hpl0.symm)
          simp [List.append_assoc]
        simp only [region_node, depth_node, size_node, idRegions_node]
        refine remove_post_spec cap reg elems c1 n2' c3 c4 d sz id rg
          _ hnd hI1 hlenO hpl (by omega) hw5 ?_ ?_ ?_ ?_ hwc1 hw2 hwc3 hwc4
        · intro p hp
          rw [hr2]
          exact hw7 p hp
        · intro p hp
          exact hw82 p (hp2.mem_iff.mp (List.mem_cons_of_mem _ hp))
        · intro p hp
          rw [hr2]
          exact hw83 p hp
        · intro p hp
          rw [hr2]
          exact hw84 p hp
      rcases List.mem_append.mp hrest3 with hm3 | hm4
      · have hb1 : c1.region.contains rg = false := (hw83 (id, rg) hm3).1
        have hb2 : c2.region.contains rg = false := (hw83 (id, rg) hm3).2
        have hb3 : c3.region.contains rg = true :=
          wfB_deep_I1 cap c3 hwc3 _ hm3
        rw [if_neg (by simp [hb1]), if_neg (by simp [hb2]), if_pos hb3]
        obtain ⟨n3', hrem, hw3, hr3, hd3, hs3, hp3⟩ := ih3 id rg cap hwc3 hm3
        rw [hrem]
        simp only [except_bind_ok]
        have hidc : id ∈ c3.idRegions.map Prod.fst :=
          List.mem_map.mpr ⟨(id, rg), hm3, rfl⟩
        have hne : id ∉ elems.map Prod.fst := fun hin =>
          hdisj hin (by simp [hidc])
        rw [mapErase_absent id elems hne]
        have hpl0 := perm_bubble (id, rg) (elems ++ c1.idRegions ++ c2.idRegions)
          c4.idRegions n3'.idRegions c3.idRegions hp3.symm
        have hpl : List.Perm
            ((id, rg) :: (elems ++ (c1.idRegions ++ (c2.idRegions ++
              (n3'.idRegions ++ c4.idRegions)))))
            (elems ++ (c1.idRegions ++ (c2.idRegions ++
              (c3.idRegions ++ c4.idRegions)))) := by
          refine List.Perm.trans ?_ (by simpa [List.append_assoc] using hpl0.symm)
          simp [List.append_assoc]
        simp only [region_node, depth_node, size_node, idRegions_node]
        refine remove_post_spec cap reg elems c1 c2 n3' c4 d sz id rg
          _ hnd hI1 hlenO hpl (by omega) hw5 ?_ ?_ ?_ ?_ hwc1 hwc2 hw3 hwc4
        · intro p hp
          rw [hr3]
          exact hw7 p hp
        · intro p hp
          exact hw82 p hp
        · intro p hp
          refine ⟨(hw83 p ?_).1, (hw83 p ?_).2⟩ <;>
            exact hp3.mem_iff.mp (List.mem_cons_of_mem _ hp)
        · intro p hp
          rw [hr3]
          exact hw84 p hp
      · have hb1 : c1.region.contains rg = false := (hw84 (id, rg) hm4).1
        have hb2 : c2.region.contains rg = false := (hw84 (id, rg) hm4).2.1
        have hb3 : c3.region.contains rg = false := (hw84 (id, rg) hm4).2.2
        have hb4 : c4.region.contains rg = true :=
          wfB_deep_I1 cap c4 hwc4 _ hm4
        rw [if_neg (by simp [hb1]), if_neg (by simp [hb2]),
          if_neg (by simp [hb3]), if_pos hb4]
        obtain ⟨n4', hrem, hw4, hr4, hd4, hs4, hp4⟩ := ih4 id rg cap hwc4 hm4
        rw [hrem]
        simp only [except_bind_ok]
        have hidc : id ∈ c4.idRegions.map Prod.fst :=
          List.mem_map.mpr ⟨(id, rg), hm4, rfl⟩
        have hne : id ∉ elems.map Prod.fst := fun hin =>
          hdisj hin (by simp [hidc])
        rw [mapErase_absent id elems hne]
        have hpl0 := perm_bubble (id, rg)
          (elems ++ c1.idRegions ++ c2.idRegions ++ c3.idRegions)
          ([] : List (Nat × Rect)) n4'.idRegions c4.idRegions hp4.symm
        have hpl : List.Perm
            ((id, rg) :: (elems ++ (c1.idRegions ++ (c2.idRegions ++
              (c3.idRegions ++ n4'.idRegions)))))
            (elems ++ (c1.idRegions ++ (c2.idRegions ++
              (c3.idRegions ++ c4.idRegions)))) := by
          refine List.Perm.trans ?_ (by simpa [List.append_assoc] using hpl0.symm)
          simp [List.append_assoc]
        simp only [region_node, depth_node, size_node, idRegions_node]
        refine remove_post_spec cap reg elems c1 c2 c3 n4' d sz id rg
          _ hnd hI1 hlenO hpl (by omega) hw5 ?_ ?_ ?_ ?_ hwc1 hwc2 hwc3 hw4
        · intro p hp
          rw [hr4]
          exact hw7 p hp
        · intro p hp
          exact hw82 p hp
        · intro p hp
          exact hw83 p hp
        · intro p hp
          refine ⟨(hw84 p ?_).1, (hw84 p ?_).2.1, (hw84 p ?_).2.2⟩ <;>
            exact hp4.mem_iff.mp (List.mem_cons_of_mem _ hp)

/-! ## Quadtree-level invariants -/

/-- The recorded ids of a well-formed subtree are distinct. -/
theorem wfB_nodup (cap : Nat) (n : Node) (h : Node.wfB cap n = true) :
    (n.idRegions.map Prod.fst).Nodup := by
  cases n with
  | leaf reg elems d sz =>
      rw [wfB_leaf_iff] at h
      simpa using h.2.2.1
  | node reg elems c1 c2 c3 c4 d sz =>
      rw [wfB_node_iff] at h
      simpa using h.2.2.1

theorem map_proj_fst {α : Type} (l : List (Nat × (α × Rect))) :
    (l.map (fun p => (p.1, p.2.2))).map Prod.fst = l.map Prod.fst := by
  induction l with
  | nil => rfl
  | cons p t ih => simp [ih]

theorem mapErase_map {α : Type} (k : Nat) (l : List (Nat × (α × Rect))) :
    (mapErase k l).map (fun p => (p.1, p.2.2)) =
      mapErase k (l.map (fun p => (p.1, p.2.2))) := by
  induction l with
  | nil => rfl
  | cons p t ih =>
      obtain ⟨pk, pv⟩ := p
      by_cases h : pk = k
      · simp [mapErase, h]
      · simp [mapErase, h, ih]

theorem mapErase_key_not_mem {β : Type} (k : Nat) :
    ∀ (l : List (Nat × β)), (l.map Prod.fst).Nodup →
      k ∉ (mapErase k l).map Prod.fst := by
  intro l
  induction l with
  | nil => intro _; simp [mapErase]
  | cons p t ih =>
      obtain ⟨pk, pv⟩ := p
      intro hnd
      simp only [List.map_cons, List.nodup_cons] at hnd
      by_cases h : pk = k
      · simp only [mapErase, if_pos h]
        subst h
        exact hnd.1
      · simp only [mapErase, if_neg h, List.map_cons, List.mem_cons]
        push_neg
        exact ⟨fun e => h e.symm, ih hnd.2⟩

/-- The structural invariant of a `Quadtree` value: the root tree is
well-formed with respect to the capacity, it records exactly the
(id, region) pairs of the authoritative store, and every stored id is
below `next_id` (so freshly allocated ids are really fresh).  This holds
for `Quadtree::new` and is preserved by `insert` and `remove`; it is the
precise sense in which the Node tree is a derived index over `elements`. -/
def wfQ {α : Type} (q : Quadtree α) : Prop :=
  Node.wfB q.max_node_capacity q.root = true ∧
  List.Perm q.root.idRegions (q.elements.map (fun p => (p.1, p.2.2))) ∧
  ∀ k ∈ q.elements.map Prod.fst, k < q.next_id

/-- C7: for every quadtree satisfying the structural invariant, every
value `v` and every region `r` contained in the root's region, if
`insert(v, r)` returns an id, then an immediate `remove(id)` succeeds
and returns exactly the pair `(v, r)`. -/
theorem c7_insert_remove_roundtrip {α : Type} (fuel : Nat) (q : Quadtree α)
    (v : α) (r : Rect) (id : Nat) (q' : Quadtree α)
    (hwf : wfQ q) (hc : q.root.region.contains r = true)
    (hins : Quadtree.insertQ fuel q v r = Except.ok (id, q')) :
    ∃ q'', Quadtree.removeQ q' id = Except.ok (some (v, r), q'') := by
  obtain ⟨hwfB, hpermQ, hfreshQ⟩ := hwf
  cases hroot : q.root.insert fuel q.next_id r q.max_node_capacity with
  | error e =>
      simp only [Quadtree.insertQ, hroot, except_bind_err] at hins
      cases hins
  | ok root' =>
      simp only [Quadtree.insertQ, hroot, except_bind_ok, except_pure] at hins
      cases hins
      have hfreshE : q.next_id ∉ q.elements.map Prod.fst := fun hmem =>
        lt_irrefl _ (hfreshQ _ hmem)
      have hfreshT : q.next_id ∉ q.root.treeIds := by
        intro hmem
        rw [Node.treeIds] at hmem
        have h2 : q.next_id ∈ (q.elements.map (fun p => (p.1, p.2.2))).map
            Prod.fst := (hpermQ.map Prod.fst).mem_iff.mp hmem
        rw [map_proj_fst] at h2
        exact hfreshE h2
      obtain ⟨hw', _, _, hp'⟩ :=
        insert_spec fuel q.root q.next_id r q.max_node_capacity root'
          hwfB hc hfreshT hroot
      have hmem' : (q.next_id, r) ∈ root'.idRegions :=
        hp'.mem_iff.mpr (List.mem_cons_self _ _)
      obtain ⟨n', hrem, _, _, _, _, _⟩ :=
        remove_spec root' q.next_id r q.max_node_capacity hw' hmem'
      have hlook : mapLookup q.next_id
          (mapInsert q.next_id (v, r) q.elements) = some (v, r) := by
        rw [mapInsert_fresh _ _ _ hfreshE]
        exact mapLookup_append_fresh _ _ _ hfreshE
      refine ⟨⟨q.max_node_capacity, n',
        mapErase q.next_id (mapInsert q.next_id (v, r) q.elements),
        q.next_id + 1⟩, ?_⟩
      simp only [Quadtree.removeQ, hlook, hrem, except_bind_ok, except_pure]

/-- A concrete instance of the round trip: inserting value 42 at
(10,10,10,10) into a fresh tree over (0,0,100,100) with capacity 5 and
removing the returned id 0 yields back exactly (42, (10,10,10,10)). -/
theorem c7_insert_remove_roundtrip_witness :
    ∃ q'', Quadtree.removeQ
      (⟨5, Node.leaf (Rect.new 0 0 100 100)
          [(0, Rect.new 10 10 10 10)] 0 1,
        [(0, (42, Rect.new 10 10 10 10))], 1⟩ : Quadtree Nat) 0 =
      Except.ok (some (42, Rect.new 10 10 10 10), q'') :=
  c7_insert_remove_roundtrip 20 (Quadtree.new Nat (Rect.new 0 0 100 100) 5)
    42 (Rect.new 10 10 10 10) 0 _
    ⟨rfl, List.Perm.refl [], by simp [Quadtree.new]⟩ (by decide) rfl

/-- C8 (amended): `remove` of an id absent from the authoritative store
returns an explicit `none` without faulting and leaves the state
unchanged, on every state.  `remove` of a present id, on a state
satisfying the structural invariant, returns the stored (value, region)
pair and removes the id from both the authoritative map and the Node
tree, preserving the invariant. -/
theorem c8_amended :
    (∀ (α : Type) (q : Quadtree α) (id : Nat),
      mapLookup id q.elements = none →
      Quadtree.removeQ q id = Except.ok (none, q)) ∧
    (∀ (α : Type) (q : Quadtree α) (id : Nat) (v : α) (r : Rect),
      wfQ q → mapLookup id q.elements = some (v, r) →
      ∃ q', Quadtree.removeQ q id = Except.ok (some (v, r), q') ∧
        q'.elements = mapErase id q.elements ∧
        id ∉ q'.elements.map Prod.fst ∧
        id ∉ q'.root.treeIds ∧ wfQ q') := by
  constructor
  · intro α q id hlook
    have hnm := (mapLookup_none_iff id q.elements).mp hlook
    simp only [Quadtree.removeQ, hlook, mapErase_absent id q.elements hnm]
    rfl
  · intro α q id v r hwf hlook
    obtain ⟨hwfB, hperm, hfresh⟩ := hwf
    have hndT : (q.root.idRegions.map Prod.fst).Nodup :=
      wfB_nodup q.max_node_capacity q.root hwfB
    have hndP : ((q.elements.map (fun p => (p.1, p.2.2))).map Prod.fst).Nodup :=
      ((hperm.map Prod.fst).nodup_iff).mp hndT
    have hndE : (q.elements.map Prod.fst).Nodup := by
      rw [map_proj_fst] at hndP
      exact hndP
    have hmemE : (id, (v, r)) ∈ q.elements := mapLookup_mem id (v, r) q.elements hlook
    have hmemP : (id, r) ∈ q.elements.map (fun p => (p.1, p.2.2)) :=
      List.mem_map.mpr ⟨(id, (v, r)), hmemE, rfl⟩
    have hmemT : (id, r) ∈ q.root.idRegions := hperm.mem_iff.mpr hmemP
    obtain ⟨n', hrem, hw', hr', hd', hs', hp'⟩ :=
      remove_spec q.root id r q.max_node_capacity hwfB hmemT
    refine ⟨⟨q.max_node_capacity, n', mapErase id q.elements, q.next_id⟩,
      ?_, rfl, ?_, ?_, ?_, ?_, ?_⟩
    · simp only [Quadtree.removeQ, hlook, hrem, except_bind_ok, except_pure]
    · exact mapErase_key_not_mem id q.elements hndE
    · have hnd2 : ((id :: n'.idRegions.map Prod.fst)).Nodup := by
        have h := ((hp'.map Prod.fst).nodup_iff).mpr hndT
        simpa using h
      rw [Node.treeIds]
      exact (List.nodup_cons.mp hnd2).1
    · exact hw'
    · have hpe := mapErase_perm id r
        (q.elements.map (fun p => (p.1, p.2.2))) hndP hmemP
      have hboth : List.Perm ((id, r) :: n'.idRegions)
          ((id, r) :: mapErase id (q.elements.map (fun p => (p.1, p.2.2)))) :=
        (hp'.trans hperm).trans hpe.symm
      have hcore := hboth.cons_inv
      rw [mapErase_map]
      exact hcore
    · intro k hk
      have : k ∈ q.elements.map Prod.fst := by
        have hs := (mapErase_sublist id q.elements).map Prod.fst
        exact hs.subset hk
      exact hfresh k this

/-- Concrete instances of the amended C8: removing the unknown id 7 from
a fresh tree returns `none` and the unchanged state; removing the present
id 3 from a one-element tree returns the stored pair (99, (20,20,8,8))
and clears the id from both structures. -/
theorem c8_amended_witness :
    (Quadtree.removeQ (Quadtree.new Nat (Rect.new 0 0 100 100) 5) 7 =
      Except.ok (none, Quadtree.new Nat (Rect.new 0 0 100 100) 5)) ∧
    (∃ q', Quadtree.removeQ
        (⟨5, Node.leaf (Rect.new 0 0 100 100) [(3, Rect.new 20 20 8 8)] 0 1,
          [(3, (99, Rect.new 20 20 8 8))], 4⟩ : Quadtree Nat) 3 =
        Except.ok (some (99, Rect.new 20 20 8 8), q') ∧
        q'.elements = mapErase 3 [(3, (99, Rect.new 20 20 8 8))] ∧
        3 ∉ q'.elements.map Prod.fst ∧
        3 ∉ q'.root.treeIds ∧ wfQ q') :=
  ⟨c8_amended.1 Nat (Quadtree.new Nat (Rect.new 0 0 100 100) 5) 7 rfl,
   c8_amended.2 Nat
     (⟨5, Node.leaf (Rect.new 0 0 100 100) [(3, Rect.new 20 20 8 8)] 0 1,
       [(3, (99, Rect.new 20 20 8 8))], 4⟩ : Quadtree Nat) 3 99
     (Rect.new 20 20 8 8)
     ⟨by decide, List.Perm.refl _, by decide⟩ rfl⟩
